import Mathlib

/-!
# TransactionAnalyzer (src/index.js)

A shallow embedding of the `TransactionAnalyzer` class and of the JavaScript
built-ins its methods rely on (`Date`, ordinary objects used as counters,
`Array.prototype.reduce` without an initial value, `Set`), followed by the
properties proved about them.

Conventions of the embedding:

* amounts are finite numbers, held as rationals; the total and the average are
  embedded twice: over exact rationals (`calculateTotalAmount`,
  `calculateAverageTransactionAmount`), for the properties stated in exact
  arithmetic, and in double-precision arithmetic (`calculateTotalAmountF64`,
  `calculateAverageTransactionAmountF64`), as the engine computes them;
* a `Date` object is its time value: `none` is the `NaN` time value
  ("Invalid Date"), `some t` is `t` milliseconds since the epoch;
* a method that can complete abruptly returns `Except JSError _`;
* what depends on the engine (`Date.parse`, the local time zone) is a `Host`.
-/

set_option autoImplicit false

namespace TransactionAnalyzer

/-! ## JavaScript values and built-ins -/

/-- Primitive values that occur as `transaction_id`: numbers and strings. -/
inductive JSValue where
  | num (q : ℚ)
  | str (s : String)
  deriving DecidableEq

/-- The `===` operator on primitives: equal types and equal values. -/
def strictEq : JSValue → JSValue → Bool
  | .num a, .num b => decide (a = b)
  | .str a, .str b => decide (a = b)
  | _, _ => false

/-- Result of a numeric division: a finite number, `NaN`, or a signed infinity. -/
inductive JSNumber where
  | num (q : ℚ)
  | nan
  | inf (negative : Bool)
  deriving DecidableEq

/-- The `/` operator on finite operands in exact arithmetic (no rounding). -/
def jsDivide (a b : ℚ) : JSNumber :=
  if b = 0 then
    if a = 0 then .nan else .inf (decide (a < 0))
  else .num (a / b)

/-- Abrupt completions raised by the built-ins that are used. -/
inductive JSError where
  | typeError (msg : String)
  deriving DecidableEq

/-- Time value of a `Date` object; `none` is `NaN` (an invalid date). -/
abbrev JSDate := Option Int

/-- Engine-dependent parts: `Date.parse` on strings and the local time zone
adjustment (milliseconds to add to a UTC time value, possibly varying in time). -/
structure Host where
  dateParse : String → Option Int
  localTZA : Int → Int

/-- The constructor call `new Date(s)` on a string. -/
def newDate (h : Host) (s : String) : JSDate := h.dateParse s

def msPerDay : Int := 86400000

/-- Month (0 = January .. 11 = December) of a time value, proleptic Gregorian
calendar, by the days-to-civil computation on 400-year eras. -/
def monthFromTime (t : Int) : Nat :=
  let day := t / msPerDay
  let z := day + 719468
  let doe := z % 146097
  let yoe := (doe - doe / 1460 + doe / 36524 - doe / 146096) / 365
  let doy := doe - (365 * yoe + yoe / 4 - yoe / 100)
  let mp := (5 * doy + 2) / 153
  ((mp + 2) % 12).toNat

/-- The method `Date.prototype.getMonth`: local-time month, `NaN` on an invalid date. -/
def getMonth (h : Host) (d : JSDate) : Option Nat :=
  d.map (fun t => monthFromTime (t + h.localTZA t))

/-- Comparison `a >= b` of two dates (through their time values; false with `NaN`). -/
def dateGe : JSDate → JSDate → Bool
  | some x, some y => decide (x ≥ y)
  | _, _ => false

/-- Comparison `a <= b` of two dates. -/
def dateLe : JSDate → JSDate → Bool
  | some x, some y => decide (x ≤ y)
  | _, _ => false

/-- Comparison `a < b` of two dates. -/
def dateLt : JSDate → JSDate → Bool
  | some x, some y => decide (x < y)
  | _, _ => false

/-- Property keys of an ordinary object: array-index keys (the canonical decimal
string of `n`) and all other strings. -/
inductive PropertyKey where
  | index (n : Nat)
  | name (s : String)
  deriving DecidableEq

/-- Key under which a month number (or `NaN`) is stored by `count[month]`. -/
def toPropertyKey : Option Nat → PropertyKey
  | some n => if n < 4294967295 then .index n else .name (toString n)
  | none => .name "NaN"

/-- An ordinary object holding numeric data properties, in creation order. -/
abbrev JSObject := List (PropertyKey × Nat)

/-- Property read `o[k]`; `none` is `undefined`. -/
def JSObject.get (o : JSObject) (k : PropertyKey) : Option Nat :=
  match o with
  | [] => none
  | (k', v) :: rest => if k' = k then some v else JSObject.get rest k

/-- Property write `o[k] = v`: overwrite in place, or create at the end. -/
def JSObject.set (o : JSObject) (k : PropertyKey) (v : Nat) : JSObject :=
  match o with
  | [] => [(k, v)]
  | (k', v') :: rest => if k' = k then (k', v) :: rest else (k', v') :: JSObject.set rest k v

/-- Array-index keys of an object, as numbers, in creation order. -/
def indexKeys : JSObject → List Nat
  | [] => []
  | (.index n, _) :: rest => n :: indexKeys rest
  | (.name _, _) :: rest => indexKeys rest

/-- String keys of an object that are not array indices, in creation order. -/
def nameKeys : JSObject → List String
  | [] => []
  | (.index _, _) :: rest => nameKeys rest
  | (.name s, _) :: rest => s :: nameKeys rest

/-- The call `Object.keys(o)`: array indices in ascending numeric order, then the
other string keys in creation order. -/
def objectKeys (o : JSObject) : List PropertyKey :=
  ((indexKeys o).insertionSort (· ≤ ·)).map PropertyKey.index ++ (nameKeys o).map PropertyKey.name

/-- The operator `>` on two property reads (`undefined` converts to `NaN`). -/
def jsGt : Option Nat → Option Nat → Bool
  | some x, some y => decide (x > y)
  | _, _ => false

/-- The method `Array.prototype.reduce` called without an initial value. -/
def reduce {α : Type} (f : α → α → α) : List α → Except JSError α
  | [] => .error (.typeError "Reduce of empty array with no initial value")
  | x :: xs => .ok (xs.foldl f x)

/-- Spreading `new Set(xs)` into an array: the distinct values in order of first
insertion. -/
def setToArray {α : Type} [DecidableEq α] (xs : List α) : List α :=
  xs.foldl (fun acc x => if x ∈ acc then acc else acc ++ [x]) []

/-! ## Records and the class -/

/-- One transaction record, with the fields the methods read. -/
structure Transaction where
  transaction_id : JSValue
  transaction_date : String
  transaction_amount : ℚ
  transaction_type : String
  transaction_description : String
  merchant_name : String
  deriving DecidableEq

end TransactionAnalyzer

/-- The class `TransactionAnalyzer`: its only field is the array of records. -/
structure TransactionAnalyzer where
  transactions : List TransactionAnalyzer.Transaction

namespace TransactionAnalyzer

/-- Method `addTransaction`: `this.transactions.push(transaction)`. -/
def addTransaction (self : TransactionAnalyzer) (transaction : Transaction) : TransactionAnalyzer :=
  { transactions := self.transactions ++ [transaction] }

/-- Method `getAllTransactions`. -/
def getAllTransactions (self : TransactionAnalyzer) : List Transaction :=
  self.transactions

/-- Method `getUniqueTransactionTypes`. -/
def getUniqueTransactionTypes (self : TransactionAnalyzer) : List String :=
  let types := self.transactions.map (fun t => t.transaction_type)
  setToArray types

/-- Method `calculateTotalAmount`, with `+` in exact arithmetic. -/
def calculateTotalAmount (self : TransactionAnalyzer) : ℚ :=
  self.transactions.foldl (fun sum t => sum + t.transaction_amount) 0

/-- Method `getTransactionsByType`. -/
def getTransactionsByType (self : TransactionAnalyzer) (type : String) : List Transaction :=
  self.transactions.filter (fun t => decide (t.transaction_type = type))

/-- Method `getTransactionsInDateRange`. -/
def getTransactionsInDateRange (self : TransactionAnalyzer) (h : Host)
    (startDate endDate : String) : Except JSError (List Transaction) :=
  .ok (self.transactions.filter (fun t =>
    let date := newDate h t.transaction_date
    dateGe date (newDate h startDate) && dateLe date (newDate h endDate)))

/-- Method `getTransactionsByMerchant`. -/
def getTransactionsByMerchant (self : TransactionAnalyzer) (merchantName : String) :
    List Transaction :=
  self.transactions.filter (fun t => decide (t.merchant_name = merchantName))

/-- Method `calculateAverageTransactionAmount`, with `+` and `/` in exact arithmetic. -/
def calculateAverageTransactionAmount (self : TransactionAnalyzer) : JSNumber :=
  let totalAmount := self.calculateTotalAmount
  jsDivide totalAmount (self.transactions.length : ℚ)

/-- Method `getTransactionsByAmountRange`. -/
def getTransactionsByAmountRange (self : TransactionAnalyzer) (minAmount maxAmount : ℚ) :
    List Transaction :=
  self.transactions.filter (fun t =>
    decide (t.transaction_amount ≥ minAmount) && decide (t.transaction_amount ≤ maxAmount))

/-- Method `calculateTotalDebitAmount`, with `+` in exact arithmetic. -/
def calculateTotalDebitAmount (self : TransactionAnalyzer) : ℚ :=
  (self.transactions.filter (fun t => decide (t.transaction_type = "debit"))).foldl
    (fun sum t => sum + t.transaction_amount) 0

/-- The statement `months.forEach(month => count[month] = (count[month] || 0) + 1)`
run on `count = {}`. -/
def countMonths (months : List (Option Nat)) : JSObject :=
  months.foldl (fun count month =>
    count.set (toPropertyKey month) (((count.get (toPropertyKey month)).getD 0) + 1)) []

/-- The callback `(a, b) => count[a] > count[b] ? a : b`. -/
def pickMonth (count : JSObject) (a b : PropertyKey) : PropertyKey :=
  if jsGt (count.get a) (count.get b) then a else b

/-- Method `findMostTransactionsMonth`. -/
def findMostTransactionsMonth (self : TransactionAnalyzer) (h : Host) :
    Except JSError PropertyKey :=
  let months := self.transactions.map
    (fun t => (getMonth h (newDate h t.transaction_date)).map (· + 1))
  let count := countMonths months
  reduce (pickMonth count) (objectKeys count)

/-- Method `findMostDebitTransactionMonth`. -/
def findMostDebitTransactionMonth (self : TransactionAnalyzer) (h : Host) :
    Except JSError PropertyKey :=
  let months := (self.transactions.filter (fun t => decide (t.transaction_type = "debit"))).map
    (fun t => (getMonth h (newDate h t.transaction_date)).map (· + 1))
  let count := countMonths months
  reduce (pickMonth count) (objectKeys count)

/-- Method `mostTransactionTypes`. -/
def mostTransactionTypes (self : TransactionAnalyzer) : String :=
  let debitCount :=
    (self.transactions.filter (fun t => decide (t.transaction_type = "debit"))).length
  let creditCount :=
    (self.transactions.filter (fun t => decide (t.transaction_type = "credit"))).length
  if debitCount > creditCount then "debit"
  else if creditCount > debitCount then "credit"
  else "equal"

/-- Method `getTransactionsBeforeDate`. -/
def getTransactionsBeforeDate (self : TransactionAnalyzer) (h : Host) (date : String) :
    Except JSError (List Transaction) :=
  .ok (self.transactions.filter (fun t =>
    dateLt (newDate h t.transaction_date) (newDate h date)))

/-- Method `findTransactionById`; `none` is `undefined`. -/
def findTransactionById (self : TransactionAnalyzer) (id : JSValue) : Option Transaction :=
  self.transactions.find? (fun t => strictEq t.transaction_id id)

/-- Method `mapTransactionDescriptions`. -/
def mapTransactionDescriptions (self : TransactionAnalyzer) : List String :=
  self.transactions.map (fun t => t.transaction_description)

end TransactionAnalyzer

namespace TransactionAnalyzer

/-! ## A concrete host: UTC, ISO date-only strings -/

/-- Days from 1970-01-01 to the civil date `y-m-d` (proleptic Gregorian). -/
def daysFromCivil (y m d : Int) : Int :=
  let y1 := if m ≤ 2 then y - 1 else y
  let era := y1 / 400
  let yoe := y1 - era * 400
  let mp := (m + 9) % 12
  let doy := (153 * mp + 2) / 5 + d - 1
  let doe := yoe * 365 + yoe / 4 - yoe / 100 + doy
  era * 146097 + doe - 719468

/-- Number of days of month `m` (1..12) in year `y`. -/
def daysInMonth (y m : Int) : Int :=
  if m = 2 then (if y % 4 = 0 ∧ (y % 100 ≠ 0 ∨ y % 400 = 0) then 29 else 28)
  else if m = 4 ∨ m = 6 ∨ m = 9 ∨ m = 11 then 30
  else 31

/-- Value of a decimal digit character. -/
def digitValue (c : Char) : Option Int :=
  if 48 ≤ c.toNat ∧ c.toNat ≤ 57 then some ((c.toNat : Int) - 48) else none

/-- The function `Date.parse` restricted to the date-only form `YYYY-MM-DD` of the
date-time string format, read as UTC midnight; every other string is `NaN`. -/
def isoDateParse (s : String) : Option Int :=
  match s.data with
  | [y1, y2, y3, y4, s1, m1, m2, s2, d1, d2] =>
    match digitValue y1, digitValue y2, digitValue y3, digitValue y4,
          digitValue m1, digitValue m2, digitValue d1, digitValue d2 with
    | some a, some b, some c, some e, some f, some g, some i, some j =>
      let y := 1000 * a + 100 * b + 10 * c + e
      let m := 10 * f + g
      let d := 10 * i + j
      if s1 = '-' ∧ s2 = '-' ∧ 1 ≤ m ∧ m ≤ 12 ∧ 1 ≤ d ∧ d ≤ daysInMonth y m then
        some (daysFromCivil y m d * msPerDay)
      else none
    | _, _, _, _, _, _, _, _ => none
  | _ => none

/-- A host running in UTC whose `Date.parse` is `isoDateParse`. -/
def utcHost : Host := { dateParse := isoDateParse, localTZA := fun _ => 0 }

/-- A record with the given id, type, amount and date (other fields empty). -/
def mkRecord (id : JSValue) (type : String) (amount : ℚ) (date : String) : Transaction :=
  { transaction_id := id, transaction_date := date, transaction_amount := amount,
    transaction_type := type, transaction_description := "", merchant_name := "" }

/-- The two-record store of the scenarios: ids 1 and 2, a debit of 50 dated
2019-01-10 (merchant A) and a credit of 30 dated 2019-02-10 (merchant B). -/
def scenarioStore : TransactionAnalyzer :=
  { transactions :=
      [ { transaction_id := .num 1, transaction_date := "2019-01-10", transaction_amount := 50,
          transaction_type := "debit", transaction_description := "", merchant_name := "A" },
        { transaction_id := .num 2, transaction_date := "2019-02-10", transaction_amount := 30,
          transaction_type := "credit", transaction_description := "", merchant_name := "B" } ] }

end TransactionAnalyzer

namespace TransactionAnalyzer

/-! ## Auxiliary notions used in the statements -/

/-- The keys of an object, in creation order. -/
def keysOf (o : JSObject) : List PropertyKey := o.map Prod.fst

/-- The value read at a key, with `undefined` read as 0. -/
def countOf (o : JSObject) (k : PropertyKey) : Nat := (o.get k).getD 0

/-- The month number `getMonth() + 1` computed for a record (`none` is `NaN`). -/
def monthNumber (h : Host) (t : Transaction) : Option Nat :=
  (getMonth h (newDate h t.transaction_date)).map (· + 1)

/-- Number of records of the store whose month number is `m`. -/
def recordsInMonth (self : TransactionAnalyzer) (h : Host) (m : Nat) : Nat :=
  (self.transactions.filter (fun t => decide (monthNumber h t = some m))).length

/-- Ordering of array-index keys by their numeric value. -/
def indexLt (a b : PropertyKey) : Prop :=
  ∀ i j, a = PropertyKey.index i → b = PropertyKey.index j → i < j

end TransactionAnalyzer

namespace TransactionAnalyzer

/-! ## Reference semantics of the array field

The constructor stores the array it is given and `getAllTransactions` returns the
array it holds: both are references to one array object. Here arrays live in a heap
and an instance of the class holds an address. -/

/-- Address of an array object. -/
abbrev ArrayRef := Nat

/-- The arrays in memory, by address. -/
abbrev Heap := ArrayRef → List Transaction

/-- A mutation `f` applied by some holder of the reference `r` to the array at `r`. -/
def Heap.mutate (H : Heap) (r : ArrayRef) (f : List Transaction → List Transaction) : Heap :=
  fun r' => if r' = r then f (H r) else H r'

/-- The call `arr.push(t)` on the array at `r`. -/
def Heap.push (H : Heap) (r : ArrayRef) (t : Transaction) : Heap :=
  H.mutate r (fun arr => arr ++ [t])

/-- The call `arr.pop()` on the array at `r`. -/
def Heap.pop (H : Heap) (r : ArrayRef) : Heap :=
  H.mutate r (fun arr => arr.dropLast)

/-- The assignment `arr[i] = t` on the array at `r`, for an index within bounds. -/
def Heap.assign (H : Heap) (r : ArrayRef) (i : Nat) (t : Transaction) : Heap :=
  H.mutate r (fun arr => arr.set i t)

/-- An instance of the class in memory: `this.transactions` holds an address. -/
structure AnalyzerObject where
  transactions : ArrayRef

/-- The constructor: `this.transactions = transactions`. -/
def AnalyzerObject.construct (transactions : ArrayRef) : AnalyzerObject :=
  { transactions := transactions }

/-- Method `getAllTransactions` on an instance: `return this.transactions`. -/
def AnalyzerObject.getAllTransactions (self : AnalyzerObject) : ArrayRef :=
  self.transactions

/-- Method `addTransaction` on an instance: `this.transactions.push(transaction)`. -/
def AnalyzerObject.addTransaction (self : AnalyzerObject) (H : Heap) (transaction : Transaction) :
    Heap :=
  H.push self.transactions transaction

/-- The sequence of records the methods of an instance read in heap `H`. -/
def AnalyzerObject.store (self : AnalyzerObject) (H : Heap) : TransactionAnalyzer :=
  { transactions := H self.transactions }

/-- A heap with the scenario records at address 0 and empty arrays elsewhere. -/
def scenarioHeap : Heap :=
  fun r => if r = 0 then scenarioStore.transactions else []

/-! ## Further notions used in the statements -/

/-- The date of a record is valid and lies between two time values, bounds
included. -/
def dateWithin (h : Host) (s e : Int) (t : Transaction) : Bool :=
  match newDate h t.transaction_date with
  | some d => decide (s ≤ d) && decide (d ≤ e)
  | none => false

/-- The list of `transaction_type` values of the store, in insertion order. -/
def typesOf (self : TransactionAnalyzer) : List String :=
  self.transactions.map (fun t => t.transaction_type)

/-- Number of records of the store with the given type. -/
def typeCount (self : TransactionAnalyzer) (type : String) : Nat :=
  (self.transactions.filter (fun t => decide (t.transaction_type = type))).length

/-- The store of the scenario with three more records of type `refund`. -/
def refundRecords : List Transaction :=
  [mkRecord (.num 3) "refund" 5 "2019-03-01", mkRecord (.num 4) "refund" 6 "2019-03-02",
   mkRecord (.num 5) "refund" 7 "2019-03-03"]

end TransactionAnalyzer

namespace TransactionAnalyzer

/-! ## Double-precision arithmetic

The engine's numbers are IEEE 754 binary64 values: `+` and `/` return the exact
result rounded to the nearest double, ties to the even significand, and overflow
to an infinity. Zero carries no sign here. -/

/-- Whether `2^k ≤ p/q`, for `q > 0`. -/
def pow2Le (k : Int) (p q : Nat) : Bool :=
  if 0 ≤ k then decide (2 ^ k.toNat * q ≤ p) else decide (q ≤ p * 2 ^ (-k).toNat)

/-- Number of binary digits of `n`, by repeated halving; `fuel` bounds the number
of halvings. -/
def bitLengthAux : Nat → Nat → Nat
  | 0, _ => 0
  | fuel + 1, n => if n = 0 then 0 else bitLengthAux fuel (n / 2) + 1

/-- Number of binary digits of `n` (0 for 0): `n` halvings are always enough. -/
def bitLength (n : Nat) : Nat := bitLengthAux n n

/-- The largest `k` with `2^k ≤ p/q`, for `p > 0` and `q > 0`: the difference of
the bit lengths, or one less. -/
def floorLog2 (p q : Nat) : Int :=
  let k : Int := (bitLength p : Int) - (bitLength q : Int)
  if pow2Le k p q then k else k - 1

/-- Rounding of the positive ratio `p/q` to 53 significant bits, nearest with ties
to even, as a significand `m` and an exponent `s` (the value is `m * 2^s`): the
exponent of the leading bit is at least -1022, so that `s` is at least -1074. -/
def roundSignificand (p q : Nat) : Nat × Int :=
  let e := if floorLog2 p q < -1022 then -1022 else floorLog2 p q
  let s := e - 52
  let nume := if 0 ≤ s then p else p * 2 ^ (-s).toNat
  let deno := if 0 ≤ s then q * 2 ^ s.toNat else q
  let f := nume / deno
  let r := nume % deno
  let m := if 2 * r < deno then f
    else if deno < 2 * r then f + 1
    else if f % 2 = 0 then f else f + 1
  (m, s)

/-- Whether `m * 2^s` is beyond the largest double, that is at least `2^1024`: a
significand of `b` bits times `2^s` lies in `[2^(b-1+s), 2^(b+s))`. -/
def overflows (ms : Nat × Int) : Bool :=
  decide (1025 ≤ (bitLength ms.1 : Int) + ms.2)

/-- The rational `m * 2^s`. -/
def scaled (ms : Nat × Int) : ℚ :=
  if 0 ≤ ms.2 then (ms.1 : ℚ) * 2 ^ ms.2.toNat else (ms.1 : ℚ) / 2 ^ (-ms.2).toNat

/-- Rounding of an exact result to binary64, nearest with ties to even; a rounded
magnitude of `2^1024` or more is an infinity. -/
def roundDouble (x : ℚ) : JSNumber :=
  if x = 0 then .num 0
  else if overflows (roundSignificand x.num.natAbs x.den) then .inf (decide (x < 0))
  else if x < 0 then .num (-scaled (roundSignificand x.num.natAbs x.den))
  else .num (scaled (roundSignificand x.num.natAbs x.den))

/-- The operator `+` on numbers. -/
def jsAdd : JSNumber → JSNumber → JSNumber
  | .num a, .num b => roundDouble (a + b)
  | .num _, .inf s => .inf s
  | .inf s, .num _ => .inf s
  | .inf s, .inf s' => if s = s' then .inf s else .nan
  | .nan, _ => .nan
  | _, .nan => .nan

/-- The operator `/` on numbers. -/
def jsDiv : JSNumber → JSNumber → JSNumber
  | .num a, .num b =>
    if b = 0 then (if a = 0 then .nan else .inf (decide (a < 0)))
    else roundDouble (a / b)
  | .num _, .inf _ => .num 0
  | .inf s, .num b => .inf (if b < 0 then !s else s)
  | .inf _, .inf _ => .nan
  | .nan, _ => .nan
  | _, .nan => .nan

/-- Method `calculateTotalAmount` in double-precision arithmetic:
`this.transactions.reduce((sum, t) => sum + t.transaction_amount, 0)`. -/
def calculateTotalAmountF64 (self : TransactionAnalyzer) : JSNumber :=
  self.transactions.foldl (fun sum t => jsAdd sum (.num t.transaction_amount)) (.num 0)

/-- Method `calculateAverageTransactionAmount` in double-precision arithmetic:
`totalAmount / this.transactions.length`. -/
def calculateAverageTransactionAmountF64 (self : TransactionAnalyzer) : JSNumber :=
  let totalAmount := self.calculateTotalAmountF64
  jsDiv totalAmount (.num (self.transactions.length : ℚ))

/-- The exact sum of the amounts of the first `k` records. -/
def partialSum (self : TransactionAnalyzer) (k : Nat) : ℚ :=
  ((self.transactions.take k).map (fun t => t.transaction_amount)).sum

/-- A store with two records of amount `2^1023`. -/
def hugeStore : TransactionAnalyzer :=
  { transactions :=
      [mkRecord (.num 1) "debit" (2 ^ 1023) "2019-01-10",
       mkRecord (.num 2) "debit" (2 ^ 1023) "2019-02-10"] }

/-- A store with a record of amount `2^53` followed by a record of amount 1. -/
def roundingStore : TransactionAnalyzer :=
  { transactions :=
      [mkRecord (.num 1) "debit" 9007199254740992 "2019-01-10",
       mkRecord (.num 2) "debit" 1 "2019-02-10"] }

end TransactionAnalyzer

namespace TransactionAnalyzer

/-! ## Lemmas on the built-ins -/

theorem monthFromTime_lt (t : Int) : monthFromTime t < 12 := by
  unfold monthFromTime
  simp only
  omega

theorem get_set (o : JSObject) (k k' : PropertyKey) (v : Nat) :
    (o.set k v).get k' = if k = k' then some v else o.get k' := by
  induction o with
  | nil => simp [JSObject.set, JSObject.get]
  | cons p rest ih =>
    obtain ⟨a, b⟩ := p
    by_cases hak : a = k
    · subst hak
      by_cases hk : a = k' <;> simp [JSObject.set, JSObject.get, hk]
    · by_cases hk : k = k'
      · subst hk
        simp [JSObject.set, JSObject.get, hak, ih]
      · by_cases hak' : a = k'
        · subst hak'
          simp [JSObject.set, JSObject.get, hak, hk]
        · simp [JSObject.set, JSObject.get, hak, hak', hk, ih]

theorem get_isSome_iff (o : JSObject) (k : PropertyKey) :
    (o.get k).isSome ↔ k ∈ keysOf o := by
  induction o with
  | nil => simp [JSObject.get, keysOf]
  | cons p rest ih =>
    obtain ⟨a, b⟩ := p
    by_cases hak : a = k
    · simp [JSObject.get, keysOf, hak]
    · have hka : ¬ k = a := fun e => hak e.symm
      simp only [JSObject.get, hak, if_false, ih]
      simp [keysOf, hka]

theorem keysOf_set (o : JSObject) (k : PropertyKey) (v : Nat) :
    keysOf (o.set k v) = if k ∈ keysOf o then keysOf o else keysOf o ++ [k] := by
  induction o with
  | nil => simp [JSObject.set, keysOf]
  | cons p rest ih =>
    obtain ⟨a, b⟩ := p
    by_cases hak : a = k
    · subst hak
      simp [JSObject.set, keysOf]
    · have hka : ¬ k = a := fun e => hak e.symm
      have ih' := ih
      simp only [keysOf] at ih'
      by_cases hmem : k ∈ List.map Prod.fst rest
      · simp [JSObject.set, keysOf, hak, hka, hmem, ih']
      · simp [JSObject.set, keysOf, hak, hka, hmem, ih']

theorem keysOf_set_nodup (o : JSObject) (k : PropertyKey) (v : Nat)
    (hnd : (keysOf o).Nodup) : (keysOf (o.set k v)).Nodup := by
  rw [keysOf_set]
  by_cases hmem : k ∈ keysOf o
  · simpa [hmem] using hnd
  · simp only [hmem, if_false]
    exact List.Nodup.append hnd (List.nodup_singleton k) (by simpa using hmem)

theorem set_ne_nil (o : JSObject) (k : PropertyKey) (v : Nat) : o.set k v ≠ [] := by
  cases o with
  | nil => simp [JSObject.set]
  | cons p rest =>
    obtain ⟨a, b⟩ := p
    by_cases hak : a = k <;> simp [JSObject.set, hak]

theorem mem_indexKeys (o : JSObject) (n : Nat) :
    n ∈ indexKeys o ↔ PropertyKey.index n ∈ keysOf o := by
  induction o with
  | nil => simp [indexKeys, keysOf]
  | cons p rest ih =>
    obtain ⟨a, b⟩ := p
    cases a with
    | index m =>
      simp only [indexKeys, keysOf, List.map_cons, List.mem_cons] at ih ⊢
      rw [ih]
      constructor
      · rintro (h | h)
        · exact Or.inl (by rw [h])
        · exact Or.inr h
      · rintro (h | h)
        · exact Or.inl (by injection h)
        · exact Or.inr h
    | name s =>
      simp only [indexKeys, keysOf, List.map_cons, List.mem_cons] at ih ⊢
      rw [ih]
      simp

theorem mem_nameKeys (o : JSObject) (s : String) :
    s ∈ nameKeys o ↔ PropertyKey.name s ∈ keysOf o := by
  induction o with
  | nil => simp [nameKeys, keysOf]
  | cons p rest ih =>
    obtain ⟨a, b⟩ := p
    cases a with
    | index m =>
      simp only [nameKeys, keysOf, List.map_cons, List.mem_cons] at ih ⊢
      rw [ih]
      simp
    | name s' =>
      simp only [nameKeys, keysOf, List.map_cons, List.mem_cons] at ih ⊢
      rw [ih]
      constructor
      · rintro (h | h)
        · exact Or.inl (by rw [h])
        · exact Or.inr h
      · rintro (h | h)
        · exact Or.inl (by injection h)
        · exact Or.inr h

theorem indexKeys_nodup (o : JSObject) (hnd : (keysOf o).Nodup) : (indexKeys o).Nodup := by
  induction o with
  | nil => simp [indexKeys]
  | cons p rest ih =>
    obtain ⟨a, b⟩ := p
    have hcons : a ∉ keysOf rest ∧ (keysOf rest).Nodup := by
      simpa [keysOf] using hnd
    cases a with
    | index m =>
      simp only [indexKeys, List.nodup_cons]
      exact ⟨fun hm => hcons.1 ((mem_indexKeys rest m).1 hm), ih hcons.2⟩
    | name s =>
      simpa [indexKeys] using ih hcons.2

theorem mem_objectKeys (o : JSObject) (k : PropertyKey) :
    k ∈ objectKeys o ↔ k ∈ keysOf o := by
  cases k with
  | index n =>
    simp [objectKeys, List.mem_insertionSort, mem_indexKeys]
  | name s =>
    simp [objectKeys, mem_nameKeys]

theorem objectKeys_eq_nil_iff (o : JSObject) : objectKeys o = [] ↔ o = [] := by
  constructor
  · intro h
    cases o with
    | nil => rfl
    | cons p rest =>
      exfalso
      have hmem : p.1 ∈ objectKeys (p :: rest) := by
        rw [mem_objectKeys]
        simp [keysOf]
      rw [h] at hmem
      exact List.not_mem_nil _ hmem
  · intro h
    subst h
    simp [objectKeys, indexKeys, nameKeys]

theorem countMonths_append (ms : List (Option Nat)) (m : Option Nat) :
    countMonths (ms ++ [m]) =
      (countMonths ms).set (toPropertyKey m)
        (((countMonths ms).get (toPropertyKey m)).getD 0 + 1) := by
  simp [countMonths, List.foldl_append]

theorem countMonths_spec (ms : List (Option Nat)) :
    (keysOf (countMonths ms)).Nodup ∧
    ∀ k, (countMonths ms).get k =
      if (ms.map toPropertyKey).count k = 0 then none
      else some ((ms.map toPropertyKey).count k) := by
  induction ms using List.reverseRecOn with
  | nil => simp [countMonths, keysOf, JSObject.get]
  | append_singleton ms m ih =>
    obtain ⟨hnd, hget⟩ := ih
    rw [countMonths_append]
    refine ⟨keysOf_set_nodup _ _ _ hnd, fun k => ?_⟩
    rw [get_set, hget (toPropertyKey m)]
    simp only [List.map_append, List.map_cons, List.map_nil, List.count_append]
    by_cases hk : toPropertyKey m = k
    · subst hk
      by_cases hc : List.count (toPropertyKey m) (List.map toPropertyKey ms) = 0
      · simp [hc]
      · simp [hc]
    · have hk' : List.count k [toPropertyKey m] = 0 := by
        simp [List.count_singleton, hk]
      simp [hk, hk', hget k]

theorem countMonths_eq_nil_iff (ms : List (Option Nat)) : countMonths ms = [] ↔ ms = [] := by
  induction ms using List.reverseRecOn with
  | nil => simp [countMonths]
  | append_singleton ms m _ =>
    rw [countMonths_append]
    simp [set_ne_nil]

theorem countOf_countMonths (ms : List (Option Nat)) (k : PropertyKey) :
    countOf (countMonths ms) k = (ms.map toPropertyKey).count k := by
  unfold countOf
  rw [(countMonths_spec ms).2 k]
  by_cases hc : List.count k (List.map toPropertyKey ms) = 0 <;> simp [hc]

theorem mem_keysOf_countMonths (ms : List (Option Nat)) (k : PropertyKey) :
    k ∈ keysOf (countMonths ms) ↔ k ∈ ms.map toPropertyKey := by
  rw [← get_isSome_iff, (countMonths_spec ms).2 k]
  by_cases hc : List.count k (List.map toPropertyKey ms) = 0
  · simp only [hc, if_true, Option.isSome_none]
    constructor
    · intro h; cases h
    · intro h; exact absurd (List.count_pos_iff.2 h) (by omega)
  · simp only [hc, if_false, Option.isSome_some, true_iff]
    exact List.count_pos_iff.1 (Nat.pos_of_ne_zero hc)

theorem pickMonth_eq (o : JSObject) (a b : PropertyKey)
    (ha : (o.get a).isSome) (hb : (o.get b).isSome) :
    pickMonth o a b = if countOf o a > countOf o b then a else b := by
  unfold pickMonth countOf
  cases hga : o.get a with
  | none => simp [hga] at ha
  | some x =>
    cases hgb : o.get b with
    | none => simp [hgb] at hb
    | some y => simp [jsGt]

/-- The left fold of `pickMonth` from `x` over `xs` returns an element at least as
frequent as everything before it and strictly more frequent than everything
after it. -/
theorem foldl_pickMonth (o : JSObject) (x : PropertyKey) (xs : List PropertyKey)
    (hall : ∀ k ∈ x :: xs, (o.get k).isSome) :
    ∃ pre post, x :: xs = pre ++ (xs.foldl (pickMonth o) x) :: post ∧
      (∀ k ∈ pre, countOf o k ≤ countOf o (xs.foldl (pickMonth o) x)) ∧
      (∀ k ∈ post, countOf o k < countOf o (xs.foldl (pickMonth o) x)) := by
  induction xs using List.reverseRecOn with
  | nil => exact ⟨[], [], by simp⟩
  | append_singleton xs b ih =>
    have hall' : ∀ k ∈ x :: xs, (o.get k).isSome := by
      intro k hk
      apply hall
      simp only [List.mem_cons, List.mem_append] at hk ⊢
      tauto
    obtain ⟨pre, post, hdec, hpre, hpost⟩ := ih hall'
    have hr : (o.get (xs.foldl (pickMonth o) x)).isSome := by
      apply hall'
      rw [hdec]
      simp
    have hb : (o.get b).isSome := by
      apply hall
      simp
    rw [List.foldl_append]
    simp only [List.foldl_cons, List.foldl_nil]
    rw [pickMonth_eq o _ _ hr hb]
    by_cases hgt : countOf o (xs.foldl (pickMonth o) x) > countOf o b
    · simp only [hgt, if_true]
      refine ⟨pre, post ++ [b], ?_, hpre, ?_⟩
      · rw [← List.cons_append, hdec]
        simp
      · intro k hk
        rcases List.mem_append.1 hk with h | h
        · exact hpost k h
        · have : k = b := by simpa using h
          rw [this]
          exact hgt
    · simp only [hgt, if_false]
      refine ⟨x :: xs, [], by simp, ?_, by simp⟩
      intro k hk
      rw [hdec] at hk
      have hle : countOf o (xs.foldl (pickMonth o) x) ≤ countOf o b := by omega
      rcases List.mem_append.1 hk with h | h
      · exact le_trans (hpre k h) hle
      · rcases List.mem_cons.1 h with h | h
        · rw [h]; exact hle
        · exact le_trans (le_of_lt (hpost k h)) hle

theorem monthNumber_range (h : Host) (t : Transaction) (n : Nat)
    (hn : monthNumber h t = some n) : 1 ≤ n ∧ n ≤ 12 := by
  unfold monthNumber getMonth at hn
  cases hd : newDate h t.transaction_date with
  | none => simp [hd] at hn
  | some ms =>
    simp only [hd, Option.map_some', Option.some.injEq] at hn
    have := monthFromTime_lt (ms + h.localTZA ms)
    omega

theorem count_toPropertyKey (ms : List (Option Nat))
    (hval : ∀ m ∈ ms, ∃ n, m = some n ∧ n < 4294967295) (n' : Nat) :
    (ms.map toPropertyKey).count (PropertyKey.index n') = ms.count (some n') := by
  induction ms with
  | nil => simp
  | cons m rest ih =>
    have hrest : ∀ m ∈ rest, ∃ n, m = some n ∧ n < 4294967295 :=
      fun m hm => hval m (List.mem_cons_of_mem _ hm)
    obtain ⟨n, hmn, hlt⟩ := hval m (List.mem_cons_self _ _)
    subst hmn
    simp only [List.map_cons, List.count_cons, ih hrest, toPropertyKey, hlt, if_true]
    by_cases hnn : n = n'
    · subst hnn; simp
    · simp [hnn]

theorem objectKeys_countMonths (ms : List (Option Nat))
    (hval : ∀ m ∈ ms, ∃ n, m = some n ∧ n < 4294967295) :
    objectKeys (countMonths ms) =
      ((indexKeys (countMonths ms)).insertionSort (· ≤ ·)).map PropertyKey.index := by
  have hnil : nameKeys (countMonths ms) = [] := by
    apply List.eq_nil_iff_forall_not_mem.2
    intro s hs
    rw [mem_nameKeys, mem_keysOf_countMonths] at hs
    obtain ⟨m, hm, hkey⟩ := List.mem_map.1 hs
    obtain ⟨n, hmn, hlt⟩ := hval m hm
    subst hmn
    simp [toPropertyKey, hlt] at hkey
  simp [objectKeys, hnil]

theorem objectKeys_countMonths_pairwise (ms : List (Option Nat))
    (hval : ∀ m ∈ ms, ∃ n, m = some n ∧ n < 4294967295) :
    (objectKeys (countMonths ms)).Pairwise indexLt := by
  rw [objectKeys_countMonths ms hval, List.pairwise_map]
  have hsorted : ((indexKeys (countMonths ms)).insertionSort (· ≤ ·)).Sorted (· ≤ ·) :=
    List.sorted_insertionSort (· ≤ ·) _
  have hnd : ((indexKeys (countMonths ms)).insertionSort (· ≤ ·)).Nodup :=
    (List.perm_insertionSort (· ≤ ·) _).nodup_iff.2
      (indexKeys_nodup _ (countMonths_spec ms).1)
  have hlt := hsorted.lt_of_le hnd
  refine List.Pairwise.imp ?_ hlt
  intro a b hab i j hi hj
  injection hi with hi
  injection hj with hj
  omega

/-- On a non-empty list of valid month numbers, the reduction over the keys of the
counter returns the key of a month of the list that is at least as frequent as
every month, and that is the largest of the most frequent months. -/
theorem reduce_countMonths (ms : List (Option Nat)) (hne : ms ≠ [])
    (hval : ∀ m ∈ ms, ∃ n, m = some n ∧ n < 4294967295) :
    ∃ n, reduce (pickMonth (countMonths ms)) (objectKeys (countMonths ms))
          = .ok (PropertyKey.index n) ∧
      some n ∈ ms ∧
      (∀ n', ms.count (some n') ≤ ms.count (some n)) ∧
      (∀ n', ms.count (some n') = ms.count (some n) → n' ≤ n) := by
  have hkne : objectKeys (countMonths ms) ≠ [] := by
    rw [Ne, objectKeys_eq_nil_iff, countMonths_eq_nil_iff]
    exact hne
  have hpw := objectKeys_countMonths_pairwise ms hval
  have hmemkeys : ∀ k, k ∈ objectKeys (countMonths ms) ↔ k ∈ ms.map toPropertyKey :=
    fun k => by rw [mem_objectKeys, mem_keysOf_countMonths]
  have hidx : ∀ k ∈ objectKeys (countMonths ms), ∃ n, k = PropertyKey.index n ∧ some n ∈ ms := by
    intro k hk
    obtain ⟨m, hm, hkey⟩ := List.mem_map.1 ((hmemkeys k).1 hk)
    obtain ⟨n, hmn, hlt⟩ := hval m hm
    subst hmn
    refine ⟨n, ?_, hm⟩
    simp [toPropertyKey, hlt] at hkey
    exact hkey.symm
  have hin : ∀ n', some n' ∈ ms → PropertyKey.index n' ∈ objectKeys (countMonths ms) := by
    intro n' hn'
    rw [hmemkeys]
    obtain ⟨n, hmn, hlt⟩ := hval _ hn'
    injection hmn with hmn
    subst hmn
    exact List.mem_map.2 ⟨some n', hn', by simp [toPropertyKey, hlt]⟩
  have hall : ∀ k ∈ objectKeys (countMonths ms), ((countMonths ms).get k).isSome := by
    intro k hk
    rw [get_isSome_iff, ← mem_objectKeys]
    exact hk
  have hcnt : ∀ n', countOf (countMonths ms) (PropertyKey.index n') = ms.count (some n') :=
    fun n' => by rw [countOf_countMonths, count_toPropertyKey ms hval]
  cases hkeys : objectKeys (countMonths ms) with
  | nil => exact absurd hkeys hkne
  | cons x xs =>
    rw [hkeys] at hall hpw hidx hin
    obtain ⟨pre, post, hdec, hpre, hpost⟩ := foldl_pickMonth (countMonths ms) x xs hall
    have hrmem : xs.foldl (pickMonth (countMonths ms)) x ∈ x :: xs := by
      rw [hdec]; simp
    obtain ⟨n, hrn, hnms⟩ := hidx _ hrmem
    rw [hrn] at hdec hpre hpost
    refine ⟨n, by simp [reduce, hrn], hnms, ?_, ?_⟩
    · intro n'
      by_cases hn' : some n' ∈ ms
      · have hmem := hin n' hn'
        rw [hdec] at hmem
        rw [← hcnt n', ← hcnt n]
        rcases List.mem_append.1 hmem with hm | hm
        · exact hpre _ hm
        · rcases List.mem_cons.1 hm with hm | hm
          · rw [hm]
          · exact le_of_lt (hpost _ hm)
      · rw [List.count_eq_zero_of_not_mem hn']
        exact Nat.zero_le _
    · intro n' heq
      have hpos : 0 < ms.count (some n) := List.count_pos_iff.2 hnms
      have hn' : some n' ∈ ms := List.count_pos_iff.1 (by omega)
      have hmem := hin n' hn'
      rw [hdec] at hmem hpw
      rcases List.mem_append.1 hmem with hm | hm
      · have := (List.pairwise_append.1 hpw).2.2 _ hm _ (List.mem_cons_self _ _)
        exact le_of_lt (this n' n rfl rfl)
      · rcases List.mem_cons.1 hm with hm | hm
        · injection hm with hm
          omega
        · have := hpost _ hm
          rw [hcnt n', hcnt n] at this
          omega

end TransactionAnalyzer

namespace TransactionAnalyzer

/-! ## Lemmas on the month methods -/

theorem months_valid (l : List Transaction) (h : Host)
    (hdates : ∀ t ∈ l, (newDate h t.transaction_date).isSome = true) :
    ∀ m ∈ l.map (monthNumber h), ∃ n, m = some n ∧ n < 4294967295 := by
  intro m hm
  obtain ⟨t, ht, htm⟩ := List.mem_map.1 hm
  cases hd : newDate h t.transaction_date with
  | none =>
    have := hdates t ht
    simp [hd] at this
  | some ms =>
    have hmn : monthNumber h t = some (monthFromTime (ms + h.localTZA ms) + 1) := by
      simp [monthNumber, getMonth, hd]
    have hr := monthNumber_range h t _ hmn
    exact ⟨_, by rw [← htm, hmn], by omega⟩

theorem count_monthNumber (l : List Transaction) (h : Host) (n : Nat) :
    (l.map (monthNumber h)).count (some n) =
      (l.filter (fun t => decide (monthNumber h t = some n))).length := by
  induction l with
  | nil => simp
  | cons t rest ih =>
    by_cases ht : monthNumber h t = some n
    · simp [List.count_cons, ih, ht]
    · simp [List.count_cons, ih, ht]

/-- The month reduction on a non-empty list of records with parseable dates. -/
theorem monthReduce_spec (l : List Transaction) (h : Host) (hne : l ≠ [])
    (hdates : ∀ t ∈ l, (newDate h t.transaction_date).isSome = true) :
    ∃ n, reduce (pickMonth (countMonths (l.map (monthNumber h))))
          (objectKeys (countMonths (l.map (monthNumber h)))) = .ok (PropertyKey.index n) ∧
      (∃ t ∈ l, monthNumber h t = some n) ∧
      (∀ n', (l.filter (fun t => decide (monthNumber h t = some n'))).length ≤
              (l.filter (fun t => decide (monthNumber h t = some n))).length) ∧
      (∀ n', (l.filter (fun t => decide (monthNumber h t = some n'))).length =
              (l.filter (fun t => decide (monthNumber h t = some n))).length → n' ≤ n) := by
  have hne' : l.map (monthNumber h) ≠ [] := by simpa using hne
  obtain ⟨n, hres, hmem, hmax, htie⟩ :=
    reduce_countMonths (l.map (monthNumber h)) hne' (months_valid l h hdates)
  refine ⟨n, hres, ?_, ?_, ?_⟩
  · obtain ⟨t, ht, htn⟩ := List.mem_map.1 hmem
    exact ⟨t, ht, htn⟩
  · intro n'
    rw [← count_monthNumber, ← count_monthNumber]
    exact hmax n'
  · intro n'
    rw [← count_monthNumber, ← count_monthNumber]
    exact htie n'

theorem monthReduce_error_iff (l : List Transaction) (h : Host) :
    (∃ e, reduce (pickMonth (countMonths (l.map (monthNumber h))))
          (objectKeys (countMonths (l.map (monthNumber h)))) = .error e) ↔ l = [] := by
  constructor
  · rintro ⟨e, he⟩
    cases hk : objectKeys (countMonths (l.map (monthNumber h))) with
    | nil =>
      rw [objectKeys_eq_nil_iff, countMonths_eq_nil_iff] at hk
      simpa using hk
    | cons x xs =>
      rw [hk] at he
      simp [reduce] at he
  · intro hl
    subst hl
    exact ⟨_, rfl⟩

theorem monthReduce_ok_of_ne_nil (l : List Transaction) (h : Host) (hne : l ≠ []) :
    ∃ k, reduce (pickMonth (countMonths (l.map (monthNumber h))))
          (objectKeys (countMonths (l.map (monthNumber h)))) = .ok k := by
  cases hk : objectKeys (countMonths (l.map (monthNumber h))) with
  | nil =>
    rw [objectKeys_eq_nil_iff, countMonths_eq_nil_iff] at hk
    exact absurd (by simpa using hk) hne
  | cons x xs => exact ⟨_, rfl⟩

theorem findMostTransactionsMonth_eq (self : TransactionAnalyzer) (h : Host) :
    self.findMostTransactionsMonth h =
      reduce (pickMonth (countMonths (self.transactions.map (monthNumber h))))
        (objectKeys (countMonths (self.transactions.map (monthNumber h)))) := rfl

theorem findMostDebitTransactionMonth_eq (self : TransactionAnalyzer) (h : Host) :
    self.findMostDebitTransactionMonth h =
      reduce (pickMonth (countMonths ((self.getTransactionsByType "debit").map (monthNumber h))))
        (objectKeys (countMonths ((self.getTransactionsByType "debit").map (monthNumber h)))) :=
  rfl

theorem scenario_dates :
    ∀ t ∈ scenarioStore.transactions, (newDate utcHost t.transaction_date).isSome = true := by
  decide

theorem scenario_ne_nil : scenarioStore.transactions ≠ [] := by
  simp [scenarioStore]

end TransactionAnalyzer

namespace TransactionAnalyzer

/-! ## Lemmas on types, sums and lookups -/

theorem setToArray_foldl {α : Type} [DecidableEq α] (xs : List α) :
    ∀ acc : List α, acc.Nodup →
      (xs.foldl (fun acc x => if x ∈ acc then acc else acc ++ [x]) acc).Nodup ∧
      ∀ x, x ∈ xs.foldl (fun acc x => if x ∈ acc then acc else acc ++ [x]) acc ↔
        x ∈ acc ∨ x ∈ xs := by
  induction xs with
  | nil => intro acc hnd; simpa using hnd
  | cons y ys ih =>
    intro acc hnd
    simp only [List.foldl_cons]
    by_cases hy : y ∈ acc
    · simp only [hy, if_true]
      obtain ⟨h1, h2⟩ := ih acc hnd
      refine ⟨h1, fun x => ?_⟩
      rw [h2 x]
      constructor
      · rintro (h | h)
        · exact Or.inl h
        · exact Or.inr (List.mem_cons_of_mem _ h)
      · rintro (h | h)
        · exact Or.inl h
        · rcases List.mem_cons.1 h with h | h
          · exact Or.inl (h ▸ hy)
          · exact Or.inr h
    · simp only [hy, if_false]
      have hnd' : (acc ++ [y]).Nodup :=
        List.Nodup.append hnd (List.nodup_singleton y) (by simpa using hy)
      obtain ⟨h1, h2⟩ := ih (acc ++ [y]) hnd'
      refine ⟨h1, fun x => ?_⟩
      rw [h2 x]
      simp only [List.mem_append, List.mem_singleton, List.mem_cons]
      tauto

theorem setToArray_nodup {α : Type} [DecidableEq α] (xs : List α) : (setToArray xs).Nodup :=
  (setToArray_foldl xs [] List.nodup_nil).1

theorem mem_setToArray {α : Type} [DecidableEq α] (xs : List α) (x : α) :
    x ∈ setToArray xs ↔ x ∈ xs := by
  unfold setToArray
  rw [(setToArray_foldl xs [] List.nodup_nil).2 x]
  simp

/-- Summing, over a duplicate-free list, a value attached to one single element. -/
theorem sum_map_ite_eq_of_nodup {α : Type} [DecidableEq α] (L : List α) (a : α) (c : Nat)
    (hnd : L.Nodup) :
    (L.map (fun x => if a = x then c else 0)).sum = if a ∈ L then c else 0 := by
  induction L with
  | nil => simp
  | cons y ys ih =>
    have hy : y ∉ ys ∧ ys.Nodup := by simpa using hnd
    rw [List.map_cons, List.sum_cons, ih hy.2]
    by_cases hay : a = y
    · subst hay
      simp [hy.1]
    · simp [hay]

theorem sum_filter_lengths (l : List Transaction) (L : List String) (hnd : L.Nodup)
    (hall : ∀ t ∈ l, t.transaction_type ∈ L) :
    (L.map (fun ty => (l.filter (fun t => decide (t.transaction_type = ty))).length)).sum =
      l.length := by
  induction l with
  | nil => simp
  | cons t rest ih =>
    have hrest : ∀ u ∈ rest, u.transaction_type ∈ L :=
      fun u hu => hall u (List.mem_cons_of_mem _ hu)
    have hfun : (fun ty => ((t :: rest).filter
          (fun u => decide (u.transaction_type = ty))).length) =
        (fun ty => (rest.filter (fun u => decide (u.transaction_type = ty))).length +
          (if t.transaction_type = ty then 1 else 0)) := by
      funext ty
      by_cases hty : t.transaction_type = ty <;> simp [List.filter_cons, hty]
    rw [hfun, List.sum_map_add, ih hrest, sum_map_ite_eq_of_nodup L _ 1 hnd]
    simp [hall t (List.mem_cons_self _ _)]

theorem sum_filter_counts (l : List Transaction) (L : List String) (hnd : L.Nodup)
    (hall : ∀ t ∈ l, t.transaction_type ∈ L) (r : Transaction) :
    (L.map (fun ty => (l.filter (fun t => decide (t.transaction_type = ty))).count r)).sum =
      l.count r := by
  have hfun : (fun ty => (l.filter (fun t => decide (t.transaction_type = ty))).count r) =
      (fun ty => if r.transaction_type = ty then l.count r else 0) := by
    funext ty
    by_cases hty : r.transaction_type = ty
    · rw [if_pos hty]
      exact List.count_filter (by simpa using hty)
    · rw [if_neg hty]
      apply List.count_eq_zero_of_not_mem
      intro hmem
      exact hty (by simpa using (List.mem_filter.1 hmem).2)
  rw [hfun, sum_map_ite_eq_of_nodup L _ _ hnd]
  by_cases hr : r ∈ l
  · simp [hall r hr]
  · simp [List.count_eq_zero_of_not_mem hr]

theorem foldl_amount (l : List Transaction) (a : ℚ) :
    l.foldl (fun sum t => sum + t.transaction_amount) a =
      a + (l.map (fun t => t.transaction_amount)).sum := by
  induction l generalizing a with
  | nil => simp
  | cons t rest ih =>
    simp only [List.foldl_cons, List.map_cons, List.sum_cons]
    rw [ih]
    ring

theorem sum_debit_credit (l : List Transaction)
    (htypes : ∀ t ∈ l, t.transaction_type = "debit" ∨ t.transaction_type = "credit") :
    (l.map (fun t => t.transaction_amount)).sum =
      ((l.filter (fun t => decide (t.transaction_type = "debit"))).map
          (fun t => t.transaction_amount)).sum +
      ((l.filter (fun t => decide (t.transaction_type = "credit"))).map
          (fun t => t.transaction_amount)).sum := by
  induction l with
  | nil => simp
  | cons t rest ih =>
    have hrest : ∀ u ∈ rest, u.transaction_type = "debit" ∨ u.transaction_type = "credit" :=
      fun u hu => htypes u (List.mem_cons_of_mem _ hu)
    have hdc : ("debit" : String) ≠ "credit" := by decide
    rcases htypes t (List.mem_cons_self _ _) with ht | ht
    · have hc : ¬ t.transaction_type = "credit" := by rw [ht]; exact hdc
      simp only [List.map_cons, List.sum_cons, List.filter_cons, ht, hc, decide_True,
        decide_False, if_true, ih hrest]
      simp
      ring
    · have hd : ¬ t.transaction_type = "debit" := by rw [ht]; exact fun e => hdc e.symm
      simp only [List.map_cons, List.sum_cons, List.filter_cons, ht, hd, decide_True,
        decide_False, if_true, ih hrest]
      simp
      ring

theorem strictEq_iff (a b : JSValue) : strictEq a b = true ↔ a = b := by
  cases a <;> cases b <;> simp [strictEq]

end TransactionAnalyzer

namespace TransactionAnalyzer

/-! ## Checks of the date model on known dates -/

/-- The epoch is in January, the millisecond before it in December; 2020-02-29
is in February and 2020-03-01 in March. -/
theorem monthFromTime_known_dates :
    monthFromTime 0 = 0 ∧ monthFromTime (-1) = 11 ∧
    monthFromTime 1582934400000 = 1 ∧ monthFromTime 1583020800000 = 2 := by
  decide

/-- The scenario dates parse to UTC midnight of 2019-01-10 and 2019-02-10, in
months 1 and 2; a month 13 and a free-form word do not parse. -/
theorem utcHost_known_dates :
    newDate utcHost "2019-01-10" = some 1547078400000 ∧
    newDate utcHost "2019-02-10" = some 1549756800000 ∧
    (scenarioStore.transactions.map (monthNumber utcHost)) = [some 1, some 2] ∧
    newDate utcHost "2019-13-45" = none ∧
    newDate utcHost "yesterday" = none := by
  decide

end TransactionAnalyzer

namespace TransactionAnalyzer

/-- With an unparseable date in the store the key `"NaN"` is created and listed
after the month keys: here it ties with month 1 and is the one returned. -/
theorem findMostTransactionsMonth_unparseable_date :
    (TransactionAnalyzer.mk
      [mkRecord (.num 1) "debit" 5 "yesterday",
       mkRecord (.num 2) "debit" 5 "2019-01-10"]).findMostTransactionsMonth utcHost =
      .ok (PropertyKey.name "NaN") := rfl

end TransactionAnalyzer

namespace TransactionAnalyzer

/-! ## Most active month -/

/-- C1 (as stated, refuted): on the two-record store with one record dated
2019-01-10 and one dated 2019-02-10, months 1 and 2 both hold one record, and
`findMostTransactionsMonth` returns the key of month 2, not of month 1. -/
theorem findMostTransactionsMonth_tie_not_lowest :
    recordsInMonth scenarioStore utcHost 1 = 1 ∧
    recordsInMonth scenarioStore utcHost 2 = 1 ∧
    scenarioStore.findMostTransactionsMonth utcHost = .ok (PropertyKey.index 2) ∧
    scenarioStore.findMostTransactionsMonth utcHost ≠ .ok (PropertyKey.index 1) := by
  refine ⟨by decide, by decide, rfl, ?_⟩
  have h2 : scenarioStore.findMostTransactionsMonth utcHost = .ok (PropertyKey.index 2) := rfl
  rw [h2]
  intro h
  injection h with h
  injection h with h
  omega

/-- C1 (amended): for every non-empty store whose records all have parseable
dates, `findMostTransactionsMonth` breaks ties by the highest month number: the
month it returns attains the maximum record count, and every month attaining
that count is less than or equal to it. On the two-record store dated
2019-01-10 and 2019-02-10 it returns month 2. -/
theorem findMostTransactionsMonth_ties_highest (self : TransactionAnalyzer) (h : Host)
    (hne : self.transactions ≠ [])
    (hdates : ∀ t ∈ self.transactions, (newDate h t.transaction_date).isSome = true) :
    (∃ n, self.findMostTransactionsMonth h = .ok (PropertyKey.index n) ∧
      (∀ n', recordsInMonth self h n' ≤ recordsInMonth self h n) ∧
      (∀ n', recordsInMonth self h n' = recordsInMonth self h n → n' ≤ n)) ∧
    scenarioStore.findMostTransactionsMonth utcHost = .ok (PropertyKey.index 2) := by
  obtain ⟨n, hres, _, hmax, htie⟩ := monthReduce_spec self.transactions h hne hdates
  exact ⟨⟨n, by rw [findMostTransactionsMonth_eq, hres], hmax, htie⟩, rfl⟩

/-- Witness for C1 (amended): the two-record scenario store under the UTC host. -/
theorem findMostTransactionsMonth_ties_highest_witness :
    scenarioStore.transactions ≠ [] ∧
    (∀ t ∈ scenarioStore.transactions, (newDate utcHost t.transaction_date).isSome = true) ∧
    ((∃ n, scenarioStore.findMostTransactionsMonth utcHost = .ok (PropertyKey.index n) ∧
      (∀ n', recordsInMonth scenarioStore utcHost n' ≤ recordsInMonth scenarioStore utcHost n) ∧
      (∀ n', recordsInMonth scenarioStore utcHost n' = recordsInMonth scenarioStore utcHost n →
        n' ≤ n)) ∧
    scenarioStore.findMostTransactionsMonth utcHost = .ok (PropertyKey.index 2)) :=
  ⟨scenario_ne_nil, scenario_dates,
    findMostTransactionsMonth_ties_highest scenarioStore utcHost scenario_ne_nil scenario_dates⟩

/-- C2: for every non-empty store whose records all have parseable dates,
`findMostTransactionsMonth` returns the key of a month number between 1 and 12
that is the month of at least one record, and no month has strictly more records
than the returned one. -/
theorem findMostTransactionsMonth_is_mode (self : TransactionAnalyzer) (h : Host)
    (hne : self.transactions ≠ [])
    (hdates : ∀ t ∈ self.transactions, (newDate h t.transaction_date).isSome = true) :
    ∃ n, self.findMostTransactionsMonth h = .ok (PropertyKey.index n) ∧
      1 ≤ n ∧ n ≤ 12 ∧
      (∃ t ∈ self.transactions, monthNumber h t = some n) ∧
      ¬ ∃ n', recordsInMonth self h n < recordsInMonth self h n' := by
  obtain ⟨n, hres, ⟨t, ht, htn⟩, hmax, _⟩ := monthReduce_spec self.transactions h hne hdates
  have hr := monthNumber_range h t n htn
  refine ⟨n, by rw [findMostTransactionsMonth_eq, hres], hr.1, hr.2, ⟨t, ht, htn⟩, ?_⟩
  rintro ⟨n', hlt⟩
  exact absurd (hmax n') (by unfold recordsInMonth at hlt; omega)

/-- Witness for C2: the two-record scenario store under the UTC host. -/
theorem findMostTransactionsMonth_is_mode_witness :
    scenarioStore.transactions ≠ [] ∧
    (∀ t ∈ scenarioStore.transactions, (newDate utcHost t.transaction_date).isSome = true) ∧
    ∃ n, scenarioStore.findMostTransactionsMonth utcHost = .ok (PropertyKey.index n) ∧
      1 ≤ n ∧ n ≤ 12 ∧
      (∃ t ∈ scenarioStore.transactions, monthNumber utcHost t = some n) ∧
      ¬ ∃ n', recordsInMonth scenarioStore utcHost n < recordsInMonth scenarioStore utcHost n' :=
  ⟨scenario_ne_nil, scenario_dates,
    findMostTransactionsMonth_is_mode scenarioStore utcHost scenario_ne_nil scenario_dates⟩

/-- C3: `findMostTransactionsMonth` signals an error if and only if the store is
empty: on the empty store it throws the `TypeError` of a reduction of an empty
array without initial value, and on every non-empty store it returns a key. -/
theorem findMostTransactionsMonth_fails_iff_empty (self : TransactionAnalyzer) (h : Host) :
    ((∃ e, self.findMostTransactionsMonth h = .error e) ↔ self.transactions = []) ∧
    (TransactionAnalyzer.mk []).findMostTransactionsMonth h =
      .error (.typeError "Reduce of empty array with no initial value") ∧
    ((∃ k, self.findMostTransactionsMonth h = .ok k) ↔ self.transactions ≠ []) := by
  refine ⟨?_, rfl, ?_⟩
  · rw [findMostTransactionsMonth_eq]
    exact monthReduce_error_iff self.transactions h
  · constructor
    · rintro ⟨k, hk⟩ hnil
      obtain ⟨e, he⟩ := (monthReduce_error_iff self.transactions h).2 hnil
      rw [findMostTransactionsMonth_eq, he] at hk
      cases hk
    · intro hne
      rw [findMostTransactionsMonth_eq]
      exact monthReduce_ok_of_ne_nil self.transactions h hne

/-- C4: `findMostDebitTransactionMonth` on a store gives the outcome of
`findMostTransactionsMonth` on the store holding exactly its
`getTransactionsByType('debit')` records, and it fails exactly when the store has
no debit record. -/
theorem findMostDebitTransactionMonth_refines (self : TransactionAnalyzer) (h : Host) :
    self.findMostDebitTransactionMonth h =
      (TransactionAnalyzer.mk (self.getTransactionsByType "debit")).findMostTransactionsMonth h ∧
    ((∃ e, self.findMostDebitTransactionMonth h = .error e) ↔
      self.getTransactionsByType "debit" = []) ∧
    ((∃ k, self.findMostDebitTransactionMonth h = .ok k) ↔
      ∃ t ∈ self.transactions, t.transaction_type = "debit") := by
  refine ⟨rfl, ?_, ?_⟩
  · rw [findMostDebitTransactionMonth_eq]
    exact monthReduce_error_iff _ h
  · rw [findMostDebitTransactionMonth_eq]
    constructor
    · rintro ⟨k, hk⟩
      by_contra hno
      have hnil : self.getTransactionsByType "debit" = [] := by
        apply List.eq_nil_iff_forall_not_mem.2
        intro t ht
        have := List.mem_filter.1 ht
        exact hno ⟨t, this.1, by simpa using this.2⟩
      obtain ⟨e, he⟩ := (monthReduce_error_iff _ h).2 hnil
      rw [he] at hk
      cases hk
    · rintro ⟨t, ht, htd⟩
      apply monthReduce_ok_of_ne_nil
      intro hnil
      have hmem : t ∈ self.getTransactionsByType "debit" :=
        List.mem_filter.2 ⟨ht, by simpa using htd⟩
      rw [hnil] at hmem
      exact List.not_mem_nil _ hmem

end TransactionAnalyzer

namespace TransactionAnalyzer

/-! ## Types and totals -/

/-- C5: the results of `getTransactionsByType(t)`, for `t` ranging over
`getUniqueTransactionTypes()`, partition `getAllTransactions()`: every stored
record is in the result of exactly one such `t`, the lengths of the results sum
to the length of the store, and so do the occurrences of each record. -/
theorem getTransactionsByType_partition (self : TransactionAnalyzer) :
    (∀ r ∈ self.getAllTransactions,
      ∃! ty, ty ∈ self.getUniqueTransactionTypes ∧ r ∈ self.getTransactionsByType ty) ∧
    (self.getUniqueTransactionTypes.map
      (fun ty => (self.getTransactionsByType ty).length)).sum =
        self.getAllTransactions.length ∧
    (∀ r, (self.getUniqueTransactionTypes.map
      (fun ty => (self.getTransactionsByType ty).count r)).sum =
        self.getAllTransactions.count r) := by
  have hnd : self.getUniqueTransactionTypes.Nodup := setToArray_nodup _
  have hall : ∀ t ∈ self.transactions, t.transaction_type ∈ self.getUniqueTransactionTypes := by
    intro t ht
    unfold getUniqueTransactionTypes
    rw [mem_setToArray]
    exact List.mem_map.2 ⟨t, ht, rfl⟩
  refine ⟨?_, sum_filter_lengths self.transactions _ hnd hall,
    sum_filter_counts self.transactions _ hnd hall⟩
  intro r hr
  refine ⟨r.transaction_type, ⟨hall r hr, ?_⟩, ?_⟩
  · exact List.mem_filter.2 ⟨hr, by simp⟩
  · rintro ty ⟨_, hmem⟩
    have := (List.mem_filter.1 hmem).2
    exact (by simpa using this : r.transaction_type = ty).symm

/-- C6: for every non-empty store in which every record is a debit or a credit,
`calculateTotalAmount()` is `calculateTotalDebitAmount()` plus the sum of the
amounts of `getTransactionsByType('credit')`. -/
theorem calculateTotalAmount_eq_debit_add_credit (self : TransactionAnalyzer)
    (hne : self.transactions ≠ [])
    (htypes : ∀ t ∈ self.transactions,
      t.transaction_type = "debit" ∨ t.transaction_type = "credit") :
    self.calculateTotalAmount =
      self.calculateTotalDebitAmount +
        ((self.getTransactionsByType "credit").map (fun t => t.transaction_amount)).sum := by
  have _ := hne
  unfold calculateTotalAmount calculateTotalDebitAmount getTransactionsByType
  rw [foldl_amount, foldl_amount, sum_debit_credit self.transactions htypes]
  ring

/-- Witness for C6: the two-record scenario store (one debit, one credit). -/
theorem calculateTotalAmount_eq_debit_add_credit_witness :
    scenarioStore.transactions ≠ [] ∧
    (∀ t ∈ scenarioStore.transactions,
      t.transaction_type = "debit" ∨ t.transaction_type = "credit") ∧
    scenarioStore.calculateTotalAmount =
      scenarioStore.calculateTotalDebitAmount +
        ((scenarioStore.getTransactionsByType "credit").map
          (fun t => t.transaction_amount)).sum :=
  ⟨scenario_ne_nil, by simp [scenarioStore],
    calculateTotalAmount_eq_debit_add_credit scenarioStore scenario_ne_nil
      (by simp [scenarioStore])⟩

/-! ## Date queries with an unparseable argument -/

/-- C7 (as stated, refuted): with the unparseable argument `"yesterday"`, both
`getTransactionsInDateRange` and `getTransactionsBeforeDate` return normally, with
the empty sequence, on the two-record store; neither raises an error. -/
theorem invalid_date_is_not_an_error :
    newDate utcHost "yesterday" = none ∧
    scenarioStore.getTransactionsInDateRange utcHost "yesterday" "2019-12-31" = .ok [] ∧
    scenarioStore.getTransactionsBeforeDate utcHost "yesterday" = .ok [] ∧
    (¬ ∃ e, scenarioStore.getTransactionsInDateRange utcHost "yesterday" "2019-12-31"
        = .error e) ∧
    (¬ ∃ e, scenarioStore.getTransactionsBeforeDate utcHost "yesterday" = .error e) := by
  have h1 : scenarioStore.getTransactionsInDateRange utcHost "yesterday" "2019-12-31"
      = .ok [] := rfl
  have h2 : scenarioStore.getTransactionsBeforeDate utcHost "yesterday" = .ok [] := rfl
  refine ⟨rfl, h1, h2, ?_, ?_⟩
  · rintro ⟨e, he⟩
    rw [h1] at he
    cases he
  · rintro ⟨e, he⟩
    rw [h2] at he
    cases he

/-- C7 (amended): for every store, when `start` or `end` is unparseable
`getTransactionsInDateRange(start, end)` returns the empty sequence, and when
`date` is unparseable `getTransactionsBeforeDate(date)` returns the empty
sequence; no error is raised. -/
theorem invalid_date_yields_empty (self : TransactionAnalyzer) (h : Host)
    (startDate endDate date : String)
    (hrange : newDate h startDate = none ∨ newDate h endDate = none)
    (hdate : newDate h date = none) :
    self.getTransactionsInDateRange h startDate endDate = .ok [] ∧
    self.getTransactionsBeforeDate h date = .ok [] := by
  constructor
  · unfold getTransactionsInDateRange
    congr 1
    apply List.filter_eq_nil_iff.2
    intro t _
    rcases hrange with hs | he
    · rw [hs]
      cases newDate h t.transaction_date <;> simp [dateGe]
    · rw [he]
      cases newDate h t.transaction_date <;> simp [dateLe]
  · unfold getTransactionsBeforeDate
    congr 1
    apply List.filter_eq_nil_iff.2
    intro t _
    rw [hdate]
    cases newDate h t.transaction_date <;> simp [dateLt]

/-- Witness for C7 (amended): the scenario store queried with `"yesterday"`. -/
theorem invalid_date_yields_empty_witness :
    (newDate utcHost "yesterday" = none ∨ newDate utcHost "2019-12-31" = none) ∧
    newDate utcHost "yesterday" = none ∧
    scenarioStore.getTransactionsInDateRange utcHost "yesterday" "2019-12-31" = .ok [] ∧
    scenarioStore.getTransactionsBeforeDate utcHost "yesterday" = .ok [] :=
  ⟨Or.inl rfl, rfl,
    invalid_date_yields_empty scenarioStore utcHost "yesterday" "2019-12-31" "yesterday"
      (Or.inl rfl) rfl⟩

/-! ## Average in exact arithmetic -/

/-- In exact arithmetic the average is `NaN` (the division of the total 0 by the
count 0) on the empty store, which is not the number 0, and a finite number on
every non-empty store. -/
theorem calculateAverageTransactionAmount_nan_iff_empty (self : TransactionAnalyzer) :
    (TransactionAnalyzer.mk []).calculateTotalAmount = 0 ∧
    (TransactionAnalyzer.mk []).calculateAverageTransactionAmount = JSNumber.nan ∧
    (TransactionAnalyzer.mk []).calculateAverageTransactionAmount ≠ JSNumber.num 0 ∧
    (self.calculateAverageTransactionAmount = JSNumber.nan ↔ self.transactions = []) ∧
    ((∃ q, self.calculateAverageTransactionAmount = JSNumber.num q) ↔
      self.transactions ≠ []) := by
  have hempty : (TransactionAnalyzer.mk []).calculateAverageTransactionAmount = JSNumber.nan := by
    simp [calculateAverageTransactionAmount, calculateTotalAmount, jsDivide]
  have hcases : self.transactions ≠ [] →
      self.calculateAverageTransactionAmount =
        JSNumber.num (self.calculateTotalAmount / (self.transactions.length : ℚ)) := by
    intro hne
    have hlen : (self.transactions.length : ℚ) ≠ 0 := by
      have : self.transactions.length ≠ 0 := fun h0 => hne (List.length_eq_zero.1 h0)
      exact_mod_cast this
    simp [calculateAverageTransactionAmount, jsDivide, hlen]
  have hne0 : (TransactionAnalyzer.mk []).calculateAverageTransactionAmount ≠ JSNumber.num 0 := by
    rw [hempty]
    intro h
    cases h
  refine ⟨rfl, hempty, hne0, ?_, ?_⟩
  · constructor
    · intro hnan
      by_contra hne
      rw [hcases hne] at hnan
      cases hnan
    · intro hnil
      obtain ⟨l⟩ := self
      simp only at hnil
      subst hnil
      exact hempty
  · constructor
    · rintro ⟨q, hq⟩ hnil
      obtain ⟨l⟩ := self
      simp only at hnil
      subst hnil
      rw [hempty] at hq
      cases hq
    · intro hne
      exact ⟨_, hcases hne⟩

/-- C9: for every non-empty store, `calculateAverageTransactionAmount()` is a
finite number whose product with the number of stored records is
`calculateTotalAmount()`. -/
theorem calculateAverageTransactionAmount_mul_count (self : TransactionAnalyzer)
    (hne : self.transactions ≠ []) :
    ∃ q, self.calculateAverageTransactionAmount = JSNumber.num q ∧
      q * (self.getAllTransactions.length : ℚ) = self.calculateTotalAmount := by
  have hlen : (self.transactions.length : ℚ) ≠ 0 := by
    have : self.transactions.length ≠ 0 := fun h0 => hne (List.length_eq_zero.1 h0)
    exact_mod_cast this
  refine ⟨self.calculateTotalAmount / (self.transactions.length : ℚ), ?_, ?_⟩
  · simp [calculateAverageTransactionAmount, jsDivide, hlen]
  · unfold getAllTransactions
    field_simp

/-- Witness for C9: the two-record scenario store. -/
theorem calculateAverageTransactionAmount_mul_count_witness :
    scenarioStore.transactions ≠ [] ∧
    ∃ q, scenarioStore.calculateAverageTransactionAmount = JSNumber.num q ∧
      q * (scenarioStore.getAllTransactions.length : ℚ) = scenarioStore.calculateTotalAmount :=
  ⟨scenario_ne_nil, calculateAverageTransactionAmount_mul_count scenarioStore scenario_ne_nil⟩

/-! ## Lookup by identifier -/

/-- C10: `findTransactionById(id)` returns the first record, in insertion order,
whose `transaction_id` is strictly equal to `id`; it returns `undefined` exactly
when no stored record has that id; and a numeric id is never strictly equal to a
string, so a record with a numeric id is never returned for a string argument. -/
theorem findTransactionById_first_match (self : TransactionAnalyzer) (id : JSValue) :
    (∀ t, self.findTransactionById id = some t ↔
      ∃ pre post, self.getAllTransactions = pre ++ t :: post ∧ t.transaction_id = id ∧
        ∀ u ∈ pre, u.transaction_id ≠ id) ∧
    (self.findTransactionById id = none ↔ ∀ u ∈ self.getAllTransactions, u.transaction_id ≠ id) ∧
    (∀ (q : ℚ) (s : String), strictEq (.num q) (.str s) = false ∧
      strictEq (.str s) (.num q) = false) ∧
    (∀ (q : ℚ) (s : String) (t : Transaction), t.transaction_id = .num q →
      self.findTransactionById (.str s) ≠ some t) := by
  have hsome : ∀ (i : JSValue) (t : Transaction), self.findTransactionById i = some t ↔
      ∃ pre post, self.getAllTransactions = pre ++ t :: post ∧ t.transaction_id = i ∧
        ∀ u ∈ pre, u.transaction_id ≠ i := by
    intro i t
    unfold findTransactionById getAllTransactions
    rw [List.find?_eq_some]
    constructor
    · rintro ⟨hp, pre, post, hdec, hpre⟩
      refine ⟨pre, post, hdec, (strictEq_iff _ _).1 hp, ?_⟩
      intro u hu heq
      have := hpre u hu
      rw [(strictEq_iff _ _).2 heq] at this
      simp at this
    · rintro ⟨pre, post, hdec, hid, hpre⟩
      refine ⟨(strictEq_iff _ _).2 hid, pre, post, hdec, ?_⟩
      intro u hu
      have hne := hpre u hu
      cases hse : strictEq u.transaction_id i with
      | false => rfl
      | true => exact absurd ((strictEq_iff _ _).1 hse) hne
  refine ⟨hsome id, ?_, fun q s => ⟨rfl, rfl⟩, ?_⟩
  · unfold findTransactionById getAllTransactions
    rw [List.find?_eq_none]
    constructor
    · intro hall u hu heq
      exact hall u hu ((strictEq_iff _ _).2 heq)
    · intro hall u hu hse
      exact hall u hu ((strictEq_iff _ _).1 hse)
  · intro q s t htid hfind
    obtain ⟨_, _, _, hid, _⟩ := (hsome (.str s) t).1 hfind
    rw [htid] at hid
    cases hid

end TransactionAnalyzer

namespace TransactionAnalyzer

/-! ## Lemmas on insertion order -/

theorem setToArray_append_singleton {α : Type} [DecidableEq α] (xs : List α) (y : α) :
    setToArray (xs ++ [y]) =
      if y ∈ setToArray xs then setToArray xs else setToArray xs ++ [y] := by
  simp [setToArray, List.foldl_append]

/-- In the spread of a `Set`, values come in the order of their first occurrence. -/
theorem setToArray_indexOf_lt {α : Type} [DecidableEq α] (xs : List α) :
    ∀ a b, a ∈ xs → b ∈ xs →
      (List.indexOf a (setToArray xs) < List.indexOf b (setToArray xs) ↔
        List.indexOf a xs < List.indexOf b xs) := by
  induction xs using List.reverseRecOn with
  | nil => intro a b ha; cases ha
  | append_singleton xs y ih =>
    intro a b ha hb
    rw [setToArray_append_singleton]
    by_cases hy : y ∈ xs
    · have hyr : y ∈ setToArray xs := (mem_setToArray xs y).2 hy
      have ha' : a ∈ xs := by
        rcases List.mem_append.1 ha with h | h
        · exact h
        · rw [List.mem_singleton.1 h]; exact hy
      have hb' : b ∈ xs := by
        rcases List.mem_append.1 hb with h | h
        · exact h
        · rw [List.mem_singleton.1 h]; exact hy
      rw [if_pos hyr, List.indexOf_append_of_mem ha', List.indexOf_append_of_mem hb']
      exact ih a b ha' hb'
    · have hyr : y ∉ setToArray xs := fun h => hy ((mem_setToArray xs y).1 h)
      rw [if_neg hyr]
      have hin : ∀ c, c ∈ xs →
          List.indexOf c (setToArray xs ++ [y]) = List.indexOf c (setToArray xs) ∧
          List.indexOf c (xs ++ [y]) = List.indexOf c xs ∧
          List.indexOf c (setToArray xs) < (setToArray xs).length ∧
          List.indexOf c xs < xs.length := by
        intro c hc
        have hcr : c ∈ setToArray xs := (mem_setToArray xs c).2 hc
        exact ⟨List.indexOf_append_of_mem hcr, List.indexOf_append_of_mem hc,
          List.indexOf_lt_length.2 hcr, List.indexOf_lt_length.2 hc⟩
      have hnew : List.indexOf y (setToArray xs ++ [y]) = (setToArray xs).length ∧
          List.indexOf y (xs ++ [y]) = xs.length := by
        constructor
        · rw [List.indexOf_append_of_not_mem hyr]; simp
        · rw [List.indexOf_append_of_not_mem hy]; simp
      rcases List.mem_append.1 ha with ha' | ha'
      · obtain ⟨a1, a2, a3, a4⟩ := hin a ha'
        rcases List.mem_append.1 hb with hb' | hb'
        · obtain ⟨b1, b2, _, _⟩ := hin b hb'
          rw [a1, a2, b1, b2]
          exact ih a b ha' hb'
        · rw [List.mem_singleton.1 hb', a1, a2, hnew.1, hnew.2]
          exact ⟨fun _ => a4, fun _ => a3⟩
      · rw [List.mem_singleton.1 ha']
        rcases List.mem_append.1 hb with hb' | hb'
        · obtain ⟨b1, b2, b3, b4⟩ := hin b hb'
          rw [b1, b2, hnew.1, hnew.2]
          constructor
          · intro h; omega
          · intro h; omega
        · rw [List.mem_singleton.1 hb']
          constructor
          · intro h; omega
          · intro h; omega

theorem find?_append_fresh (l : List Transaction) (t : Transaction)
    (hfresh : ∀ u ∈ l, u.transaction_id ≠ t.transaction_id) :
    (l ++ [t]).find? (fun u => strictEq u.transaction_id t.transaction_id) = some t := by
  induction l with
  | nil =>
    have : strictEq t.transaction_id t.transaction_id = true := (strictEq_iff _ _).2 rfl
    simp [List.find?, this]
  | cons u rest ih =>
    have hu : strictEq u.transaction_id t.transaction_id = false := by
      cases hse : strictEq u.transaction_id t.transaction_id with
      | false => rfl
      | true => exact absurd ((strictEq_iff _ _).1 hse) (hfresh u (List.mem_cons_self _ _))
    simp only [List.cons_append, List.find?, hu]
    exact ih (fun v hv => hfresh v (List.mem_cons_of_mem _ hv))

theorem filter_type_append_other (l extra : List Transaction) (ty : String)
    (hextra : ∀ t ∈ extra, t.transaction_type ≠ ty) :
    (l ++ extra).filter (fun t => decide (t.transaction_type = ty)) =
      l.filter (fun t => decide (t.transaction_type = ty)) := by
  rw [List.filter_append]
  have : extra.filter (fun t => decide (t.transaction_type = ty)) = [] := by
    apply List.filter_eq_nil_iff.2
    intro t ht
    simpa using hextra t ht
  rw [this, List.append_nil]

theorem foldl_addTransaction (extra : List Transaction) (self : TransactionAnalyzer) :
    (extra.foldl addTransaction self).transactions = self.transactions ++ extra := by
  induction extra generalizing self with
  | nil => simp
  | cons t rest ih =>
    simp only [List.foldl_cons]
    rw [ih]
    simp [addTransaction]

end TransactionAnalyzer

namespace TransactionAnalyzer

theorem indexOf_types_eq_findIdx (l : List Transaction) (a : String) :
    List.indexOf a (l.map (fun t => t.transaction_type)) =
      l.findIdx (fun t => decide (t.transaction_type = a)) := by
  induction l with
  | nil => simp
  | cons t rest ih =>
    by_cases ht : t.transaction_type = a
    · simp [List.indexOf_cons, List.findIdx_cons, ht]
    · simp [List.indexOf_cons, List.findIdx_cons, ht, ih]

theorem string_debit_credit_equal :
    ("debit" : String) ≠ "credit" ∧ ("debit" : String) ≠ "equal" ∧
      ("credit" : String) ≠ "equal" := by
  decide

/-! ## Appending and looking up -/

/-- C11: when the `transaction_id` of `t` differs from the id of every stored
record, `findTransactionById(t.transaction_id)` after `addTransaction(t)` returns
exactly `t`. -/
theorem findTransactionById_addTransaction_fresh (self : TransactionAnalyzer) (t : Transaction)
    (hfresh : ∀ u ∈ self.getAllTransactions, u.transaction_id ≠ t.transaction_id) :
    (self.addTransaction t).findTransactionById t.transaction_id = some t := by
  unfold findTransactionById addTransaction
  exact find?_append_fresh self.transactions t hfresh

/-- Witness for C11: a record with the fresh id 3 appended to the scenario store. -/
theorem findTransactionById_addTransaction_fresh_witness :
    (∀ u ∈ scenarioStore.getAllTransactions,
      u.transaction_id ≠ (mkRecord (.num 3) "debit" 10 "2019-03-01").transaction_id) ∧
    (scenarioStore.addTransaction (mkRecord (.num 3) "debit" 10 "2019-03-01")).findTransactionById
      (mkRecord (.num 3) "debit" 10 "2019-03-01").transaction_id =
        some (mkRecord (.num 3) "debit" 10 "2019-03-01") :=
  ⟨by simp [scenarioStore, getAllTransactions, mkRecord],
    findTransactionById_addTransaction_fresh scenarioStore _
      (by simp [scenarioStore, getAllTransactions, mkRecord])⟩

/-- C12: `getUniqueTransactionTypes()` has no duplicates, holds exactly the
`transaction_type` values that occur in the store, and lists them in order of
first occurrence: `a` comes before `b` in the result if and only if the first
record of type `a` comes before the first record of type `b`. -/
theorem getUniqueTransactionTypes_first_occurrence (self : TransactionAnalyzer) :
    self.getUniqueTransactionTypes.Nodup ∧
    (∀ ty, ty ∈ self.getUniqueTransactionTypes ↔
      ∃ t ∈ self.getAllTransactions, t.transaction_type = ty) ∧
    (∀ a b, a ∈ self.getUniqueTransactionTypes → b ∈ self.getUniqueTransactionTypes →
      (List.indexOf a self.getUniqueTransactionTypes <
          List.indexOf b self.getUniqueTransactionTypes ↔
        self.getAllTransactions.findIdx (fun t => decide (t.transaction_type = a)) <
          self.getAllTransactions.findIdx (fun t => decide (t.transaction_type = b)))) := by
  refine ⟨setToArray_nodup _, ?_, ?_⟩
  · intro ty
    unfold getUniqueTransactionTypes getAllTransactions
    rw [mem_setToArray]
    simp
  · intro a b ha hb
    unfold getUniqueTransactionTypes getAllTransactions at *
    rw [mem_setToArray] at ha hb
    rw [← indexOf_types_eq_findIdx, ← indexOf_types_eq_findIdx]
    exact setToArray_indexOf_lt _ a b ha hb

/-- C13: `mostTransactionTypes` returns `debit` exactly when debit records
outnumber credit records, `credit` exactly when credit records outnumber debit
records and `equal` exactly when the two counts are equal; adding any records
whose type is neither `debit` nor `credit` leaves its result unchanged. -/
theorem mostTransactionTypes_debit_vs_credit (self : TransactionAnalyzer)
    (extra : List Transaction)
    (hextra : ∀ t ∈ extra, t.transaction_type ≠ "debit" ∧ t.transaction_type ≠ "credit") :
    (self.mostTransactionTypes = "debit" ↔ typeCount self "debit" > typeCount self "credit") ∧
    (self.mostTransactionTypes = "credit" ↔ typeCount self "credit" > typeCount self "debit") ∧
    (self.mostTransactionTypes = "equal" ↔ typeCount self "debit" = typeCount self "credit") ∧
    (extra.foldl addTransaction self).mostTransactionTypes = self.mostTransactionTypes := by
  obtain ⟨hdc, hde, hce⟩ := string_debit_credit_equal
  have hcases : ∀ s : TransactionAnalyzer,
      (s.mostTransactionTypes = "debit" ↔ typeCount s "debit" > typeCount s "credit") ∧
      (s.mostTransactionTypes = "credit" ↔ typeCount s "credit" > typeCount s "debit") ∧
      (s.mostTransactionTypes = "equal" ↔ typeCount s "debit" = typeCount s "credit") := by
    intro s
    unfold mostTransactionTypes typeCount
    simp only
    by_cases h1 : (s.transactions.filter (fun t => decide (t.transaction_type = "debit"))).length >
        (s.transactions.filter (fun t => decide (t.transaction_type = "credit"))).length
    · rw [if_pos h1]
      refine ⟨⟨fun _ => h1, fun _ => rfl⟩, ⟨fun h => absurd h hdc, fun h => by omega⟩,
        ⟨fun h => absurd h hde, fun h => by omega⟩⟩
    · rw [if_neg h1]
      by_cases h2 : (s.transactions.filter (fun t => decide (t.transaction_type = "credit"))).length >
          (s.transactions.filter (fun t => decide (t.transaction_type = "debit"))).length
      · rw [if_pos h2]
        refine ⟨⟨fun h => absurd h.symm hdc, fun h => absurd h h1⟩, ⟨fun _ => h2, fun _ => rfl⟩,
          ⟨fun h => absurd h hce, fun h => by omega⟩⟩
      · rw [if_neg h2]
        refine ⟨⟨fun h => absurd h.symm hde, fun h => absurd h h1⟩,
          ⟨fun h => absurd h.symm hce, fun h => absurd h h2⟩, ⟨fun _ => by omega, fun _ => rfl⟩⟩
  refine ⟨(hcases self).1, (hcases self).2.1, (hcases self).2.2, ?_⟩
  unfold mostTransactionTypes
  rw [foldl_addTransaction,
    filter_type_append_other _ _ "debit" (fun t ht => (hextra t ht).1),
    filter_type_append_other _ _ "credit" (fun t ht => (hextra t ht).2)]

/-- Witness for C13: three `refund` records, more numerous than the one debit and
the one credit, added to the scenario store. -/
theorem mostTransactionTypes_debit_vs_credit_witness :
    (∀ t ∈ refundRecords, t.transaction_type ≠ "debit" ∧ t.transaction_type ≠ "credit") ∧
    ((scenarioStore.mostTransactionTypes = "debit" ↔
        typeCount scenarioStore "debit" > typeCount scenarioStore "credit") ∧
    (scenarioStore.mostTransactionTypes = "credit" ↔
        typeCount scenarioStore "credit" > typeCount scenarioStore "debit") ∧
    (scenarioStore.mostTransactionTypes = "equal" ↔
        typeCount scenarioStore "debit" = typeCount scenarioStore "credit") ∧
    (refundRecords.foldl addTransaction scenarioStore).mostTransactionTypes =
      scenarioStore.mostTransactionTypes) :=
  ⟨by decide, mostTransactionTypes_debit_vs_credit scenarioStore refundRecords (by decide)⟩

/-! ## Range queries -/

/-- C14: for parseable `start` and `end`, `getTransactionsInDateRange(start, end)`
returns, in insertion order, exactly the stored records whose date `d` satisfies
`start <= d <= end`; on the two-record scenario store the range
2019-01-01 .. 2019-01-31 returns only the record with id 1. -/
theorem getTransactionsInDateRange_inclusive (self : TransactionAnalyzer) (h : Host)
    (startDate endDate : String) (s e : Int)
    (hs : newDate h startDate = some s) (he : newDate h endDate = some e) :
    self.getTransactionsInDateRange h startDate endDate =
      .ok (self.getAllTransactions.filter (dateWithin h s e)) ∧
    (∀ t, t ∈ self.getAllTransactions.filter (dateWithin h s e) ↔
      t ∈ self.getAllTransactions ∧
        ∃ d, newDate h t.transaction_date = some d ∧ s ≤ d ∧ d ≤ e) ∧
    (self.getAllTransactions.filter (dateWithin h s e)).Sublist self.getAllTransactions ∧
    scenarioStore.getTransactionsInDateRange utcHost "2019-01-01" "2019-01-31" =
      .ok [ { transaction_id := .num 1, transaction_date := "2019-01-10",
              transaction_amount := 50, transaction_type := "debit",
              transaction_description := "", merchant_name := "A" } ] := by
  refine ⟨?_, ?_, List.filter_sublist _, rfl⟩
  · unfold getTransactionsInDateRange getAllTransactions
    congr 1
    apply List.filter_congr
    intro t _
    simp only [hs, he, dateWithin]
    cases newDate h t.transaction_date <;> simp [dateGe, dateLe]
  · intro t
    rw [List.mem_filter]
    unfold dateWithin
    cases hd : newDate h t.transaction_date with
    | none => simp
    | some d => simp

/-- Witness for C14: the scenario store and the range 2019-01-01 .. 2019-01-31. -/
theorem getTransactionsInDateRange_inclusive_witness :
    newDate utcHost "2019-01-01" = some 1546300800000 ∧
    newDate utcHost "2019-01-31" = some 1548892800000 ∧
    (scenarioStore.getTransactionsInDateRange utcHost "2019-01-01" "2019-01-31" =
      .ok (scenarioStore.getAllTransactions.filter
        (dateWithin utcHost 1546300800000 1548892800000)) ∧
    (∀ t, t ∈ scenarioStore.getAllTransactions.filter
        (dateWithin utcHost 1546300800000 1548892800000) ↔
      t ∈ scenarioStore.getAllTransactions ∧
        ∃ d, newDate utcHost t.transaction_date = some d ∧
          1546300800000 ≤ d ∧ d ≤ 1548892800000) ∧
    (scenarioStore.getAllTransactions.filter
      (dateWithin utcHost 1546300800000 1548892800000)).Sublist
        scenarioStore.getAllTransactions ∧
    scenarioStore.getTransactionsInDateRange utcHost "2019-01-01" "2019-01-31" =
      .ok [ { transaction_id := .num 1, transaction_date := "2019-01-10",
              transaction_amount := 50, transaction_type := "debit",
              transaction_description := "", merchant_name := "A" } ]) :=
  ⟨rfl, rfl,
    getTransactionsInDateRange_inclusive scenarioStore utcHost "2019-01-01" "2019-01-31"
      1546300800000 1548892800000 rfl rfl⟩

/-- C15: `getTransactionsByAmountRange(min, max)` with `min > max` returns the
empty sequence, and with `min <= max` it includes every stored record whose
amount is exactly `min` or exactly `max`. -/
theorem getTransactionsByAmountRange_bounds (self : TransactionAnalyzer)
    (minAmount maxAmount : ℚ) :
    (minAmount > maxAmount → self.getTransactionsByAmountRange minAmount maxAmount = []) ∧
    (minAmount ≤ maxAmount → ∀ t ∈ self.getAllTransactions,
      (t.transaction_amount = minAmount ∨ t.transaction_amount = maxAmount) →
        t ∈ self.getTransactionsByAmountRange minAmount maxAmount) := by
  constructor
  · intro hgt
    unfold getTransactionsByAmountRange
    apply List.filter_eq_nil_iff.2
    intro t _
    simp only [Bool.and_eq_true, decide_eq_true_eq, not_and, not_le]
    intro hmin
    exact lt_of_lt_of_le hgt hmin
  · intro hle t ht hamt
    unfold getTransactionsByAmountRange
    refine List.mem_filter.2 ⟨ht, ?_⟩
    simp only [Bool.and_eq_true, decide_eq_true_eq]
    rcases hamt with h | h
    · rw [h]; exact ⟨le_refl _, hle⟩
    · rw [h]; exact ⟨hle, le_refl _⟩

/-! ## Appending -/

/-- C16: after `addTransaction(t)` the sequence returned by `getAllTransactions()`
is the previous sequence followed by `t`: its length grows by one, every earlier
position holds the record it held before, and the new last position holds `t`. -/
theorem addTransaction_appends (self : TransactionAnalyzer) (t : Transaction) :
    (self.addTransaction t).getAllTransactions = self.getAllTransactions ++ [t] ∧
    (self.addTransaction t).getAllTransactions.length = self.getAllTransactions.length + 1 ∧
    (∀ i, i < self.getAllTransactions.length →
      (self.addTransaction t).getAllTransactions[i]? = self.getAllTransactions[i]?) ∧
    (self.addTransaction t).getAllTransactions[self.getAllTransactions.length]? = some t := by
  refine ⟨rfl, by simp [addTransaction, getAllTransactions], ?_, ?_⟩
  · intro i hi
    simp only [addTransaction, getAllTransactions] at hi ⊢
    exact List.getElem?_append_left hi
  · simp [addTransaction, getAllTransactions]

/-! ## Total in exact arithmetic -/

/-- In exact arithmetic the total is the sum of `transaction_amount` over all
stored records: 0 on the empty store and 80 on the two-record scenario store. -/
theorem calculateTotalAmount_eq_sum (self : TransactionAnalyzer) :
    self.calculateTotalAmount =
      (self.getAllTransactions.map (fun t => t.transaction_amount)).sum ∧
    (TransactionAnalyzer.mk []).calculateTotalAmount = 0 ∧
    scenarioStore.calculateTotalAmount = 80 := by
  refine ⟨?_, rfl, ?_⟩
  · unfold calculateTotalAmount getAllTransactions
    rw [foldl_amount]
    ring
  · unfold calculateTotalAmount
    rw [foldl_amount]
    simp [scenarioStore]
    norm_num

end TransactionAnalyzer

namespace TransactionAnalyzer

/-! ## Lemmas on permuted stores -/

theorem nameKeys_nodup (o : JSObject) (hnd : (keysOf o).Nodup) : (nameKeys o).Nodup := by
  induction o with
  | nil => simp [nameKeys]
  | cons p rest ih =>
    obtain ⟨a, b⟩ := p
    have hcons : a ∉ keysOf rest ∧ (keysOf rest).Nodup := by
      simpa [keysOf] using hnd
    cases a with
    | index m =>
      simpa [nameKeys] using ih hcons.2
    | name s =>
      simp only [nameKeys, List.nodup_cons]
      exact ⟨fun hm => hcons.1 ((mem_nameKeys rest s).1 hm), ih hcons.2⟩

theorem nodup_const_cases {α : Type} (l : List α) (c : α) (hnd : l.Nodup)
    (hc : ∀ x ∈ l, x = c) : l = [] ∨ l = [c] := by
  cases l with
  | nil => exact Or.inl rfl
  | cons x xs =>
    right
    have hx : x = c := hc x (List.mem_cons_self _ _)
    have hxs : xs = [] := by
      apply List.eq_nil_iff_forall_not_mem.2
      intro y hy
      have hyc : y = c := hc y (List.mem_cons_of_mem _ hy)
      have hnot : x ∉ xs := (List.nodup_cons.1 hnd).1
      rw [hx, ← hyc] at hnot
      exact hnot hy
    rw [hx, hxs]

theorem nodup_const_ext {α : Type} (l₁ l₂ : List α) (c : α)
    (h₁ : l₁.Nodup) (h₂ : l₂.Nodup) (hc₁ : ∀ x ∈ l₁, x = c) (hc₂ : ∀ x ∈ l₂, x = c)
    (hmem : c ∈ l₁ ↔ c ∈ l₂) : l₁ = l₂ := by
  rcases nodup_const_cases l₁ c h₁ hc₁ with e₁ | e₁ <;>
    rcases nodup_const_cases l₂ c h₂ hc₂ with e₂ | e₂
  · rw [e₁, e₂]
  · rw [e₁, e₂] at hmem
    simp at hmem
  · rw [e₁, e₂] at hmem
    simp at hmem
  · rw [e₁, e₂]

theorem get_countMonths_perm (ms₁ ms₂ : List (Option Nat)) (hp : ms₁.Perm ms₂)
    (k : PropertyKey) : (countMonths ms₁).get k = (countMonths ms₂).get k := by
  rw [(countMonths_spec ms₁).2 k, (countMonths_spec ms₂).2 k,
    (hp.map toPropertyKey).count_eq k]

theorem pickMonth_countMonths_perm (ms₁ ms₂ : List (Option Nat)) (hp : ms₁.Perm ms₂) :
    pickMonth (countMonths ms₁) = pickMonth (countMonths ms₂) := by
  funext a b
  unfold pickMonth
  rw [get_countMonths_perm ms₁ ms₂ hp a, get_countMonths_perm ms₁ ms₂ hp b]

theorem nameKeys_countMonths_nan (ms : List (Option Nat))
    (hrange : ∀ n, some n ∈ ms → n < 4294967295) :
    ∀ s ∈ nameKeys (countMonths ms), s = "NaN" := by
  intro s hs
  rw [mem_nameKeys, mem_keysOf_countMonths] at hs
  obtain ⟨m, hm, hkey⟩ := List.mem_map.1 hs
  cases m with
  | none =>
    simp only [toPropertyKey] at hkey
    injection hkey with hkey
    exact hkey.symm
  | some n =>
    have hlt := hrange n hm
    simp [toPropertyKey, hlt] at hkey

/-- The key list of the month counter does not depend on the order of the months. -/
theorem objectKeys_countMonths_perm (ms₁ ms₂ : List (Option Nat)) (hp : ms₁.Perm ms₂)
    (hrange : ∀ n, some n ∈ ms₁ → n < 4294967295) :
    objectKeys (countMonths ms₁) = objectKeys (countMonths ms₂) := by
  have hrange₂ : ∀ n, some n ∈ ms₂ → n < 4294967295 :=
    fun n hn => hrange n (hp.mem_iff.2 hn)
  have hkeys : ∀ k, k ∈ keysOf (countMonths ms₁) ↔ k ∈ keysOf (countMonths ms₂) := by
    intro k
    rw [mem_keysOf_countMonths, mem_keysOf_countMonths]
    exact (hp.map toPropertyKey).mem_iff
  have hidx : (indexKeys (countMonths ms₁)).Perm (indexKeys (countMonths ms₂)) := by
    apply (List.perm_ext_iff_of_nodup (indexKeys_nodup _ (countMonths_spec ms₁).1)
      (indexKeys_nodup _ (countMonths_spec ms₂).1)).2
    intro n
    rw [mem_indexKeys, mem_indexKeys]
    exact hkeys _
  have hsort : (indexKeys (countMonths ms₁)).insertionSort (· ≤ ·) =
      (indexKeys (countMonths ms₂)).insertionSort (· ≤ ·) := by
    apply List.eq_of_perm_of_sorted
      (((List.perm_insertionSort (· ≤ ·) _).trans hidx).trans
        (List.perm_insertionSort (· ≤ ·) _).symm)
      (List.sorted_insertionSort (· ≤ ·) _) (List.sorted_insertionSort (· ≤ ·) _)
  have hname : nameKeys (countMonths ms₁) = nameKeys (countMonths ms₂) := by
    apply nodup_const_ext _ _ "NaN" (nameKeys_nodup _ (countMonths_spec ms₁).1)
      (nameKeys_nodup _ (countMonths_spec ms₂).1)
      (nameKeys_countMonths_nan ms₁ hrange) (nameKeys_countMonths_nan ms₂ hrange₂)
    rw [mem_nameKeys, mem_nameKeys]
    exact hkeys _
  unfold objectKeys
  rw [hsort, hname]

theorem monthNumber_lt (l : List Transaction) (h : Host) :
    ∀ n, some n ∈ l.map (monthNumber h) → n < 4294967295 := by
  intro n hn
  obtain ⟨t, _, htn⟩ := List.mem_map.1 hn
  have := monthNumber_range h t n htn
  omega

theorem monthReduce_perm (l₁ l₂ : List Transaction) (h : Host) (hp : l₁.Perm l₂) :
    reduce (pickMonth (countMonths (l₁.map (monthNumber h))))
        (objectKeys (countMonths (l₁.map (monthNumber h)))) =
      reduce (pickMonth (countMonths (l₂.map (monthNumber h))))
        (objectKeys (countMonths (l₂.map (monthNumber h)))) := by
  rw [pickMonth_countMonths_perm _ _ (hp.map (monthNumber h)),
    objectKeys_countMonths_perm _ _ (hp.map (monthNumber h)) (monthNumber_lt l₁ h)]

/-- On an instance, `addTransaction` acts on the sequence it holds as the method
of the value-level class does. -/
theorem store_addTransaction (self : AnalyzerObject) (H : Heap) (t : Transaction) :
    self.store (self.addTransaction H t) = (self.store H).addTransaction t := by
  simp [AnalyzerObject.store, AnalyzerObject.addTransaction, addTransaction, Heap.push,
    Heap.mutate]

theorem scenario_reverse_perm :
    scenarioStore.transactions.Perm (TransactionAnalyzer.mk scenarioStore.transactions.reverse).transactions :=
  (List.reverse_perm _).symm

end TransactionAnalyzer

namespace TransactionAnalyzer

/-! ## Order independence of aggregations -/

/-- C17: insertion order has no bearing on aggregations: on two stores whose
record sequences are permutations of each other, `calculateTotalAmount`,
`calculateTotalDebitAmount`, `mostTransactionTypes`, `findMostTransactionsMonth`
and `findMostDebitTransactionMonth` give the same result (amounts in exact
arithmetic). -/
theorem aggregations_permutation_invariant (a b : TransactionAnalyzer) (h : Host)
    (hperm : a.transactions.Perm b.transactions) :
    a.calculateTotalAmount = b.calculateTotalAmount ∧
    a.calculateTotalDebitAmount = b.calculateTotalDebitAmount ∧
    a.mostTransactionTypes = b.mostTransactionTypes ∧
    a.findMostTransactionsMonth h = b.findMostTransactionsMonth h ∧
    a.findMostDebitTransactionMonth h = b.findMostDebitTransactionMonth h := by
  have hfilter : ∀ ty : String,
      (a.transactions.filter (fun t => decide (t.transaction_type = ty))).Perm
        (b.transactions.filter (fun t => decide (t.transaction_type = ty))) :=
    fun ty => hperm.filter _
  refine ⟨?_, ?_, ?_, ?_, ?_⟩
  · unfold calculateTotalAmount
    rw [foldl_amount, foldl_amount, (hperm.map _).sum_eq]
  · unfold calculateTotalDebitAmount
    rw [foldl_amount, foldl_amount, ((hfilter "debit").map _).sum_eq]
  · unfold mostTransactionTypes
    rw [(hfilter "debit").length_eq, (hfilter "credit").length_eq]
  · rw [findMostTransactionsMonth_eq, findMostTransactionsMonth_eq]
    exact monthReduce_perm _ _ h hperm
  · rw [findMostDebitTransactionMonth_eq, findMostDebitTransactionMonth_eq]
    exact monthReduce_perm _ _ h (hfilter "debit")

/-- Witness for C17: the scenario store and the store holding its records in
reverse order. -/
theorem aggregations_permutation_invariant_witness :
    scenarioStore.transactions.Perm
      (TransactionAnalyzer.mk scenarioStore.transactions.reverse).transactions ∧
    (scenarioStore.calculateTotalAmount =
      (TransactionAnalyzer.mk scenarioStore.transactions.reverse).calculateTotalAmount ∧
    scenarioStore.calculateTotalDebitAmount =
      (TransactionAnalyzer.mk scenarioStore.transactions.reverse).calculateTotalDebitAmount ∧
    scenarioStore.mostTransactionTypes =
      (TransactionAnalyzer.mk scenarioStore.transactions.reverse).mostTransactionTypes ∧
    scenarioStore.findMostTransactionsMonth utcHost =
      (TransactionAnalyzer.mk scenarioStore.transactions.reverse).findMostTransactionsMonth
        utcHost ∧
    scenarioStore.findMostDebitTransactionMonth utcHost =
      (TransactionAnalyzer.mk scenarioStore.transactions.reverse).findMostDebitTransactionMonth
        utcHost) :=
  ⟨scenario_reverse_perm,
    aggregations_permutation_invariant scenarioStore
      (TransactionAnalyzer.mk scenarioStore.transactions.reverse) utcHost scenario_reverse_perm⟩

/-! ## The value returned by `getAllTransactions` -/

/-- C19 (as stated, refuted): an instance built on the scenario array returns
that same array from `getAllTransactions()`; when the caller pushes a record on
the returned value, pops it, or replaces its first element, the sequence held by
the store changes (3 records, 1 record, another first id) and so does a later
`calculateTotalAmount()` (85 instead of 80). -/
theorem getAllTransactions_exposes_store :
    ((AnalyzerObject.construct 0).store scenarioHeap).getAllTransactions.length = 2 ∧
    ((AnalyzerObject.construct 0).store scenarioHeap).calculateTotalAmount = 80 ∧
    ((AnalyzerObject.construct 0).store
      (scenarioHeap.push (AnalyzerObject.construct 0).getAllTransactions
        (mkRecord (.num 3) "debit" 5 "2019-03-01"))).getAllTransactions.length = 3 ∧
    ((AnalyzerObject.construct 0).store
      (scenarioHeap.push (AnalyzerObject.construct 0).getAllTransactions
        (mkRecord (.num 3) "debit" 5 "2019-03-01"))).calculateTotalAmount = 85 ∧
    ((AnalyzerObject.construct 0).store
      (scenarioHeap.pop (AnalyzerObject.construct 0).getAllTransactions)).getAllTransactions.length
        = 1 ∧
    (((AnalyzerObject.construct 0).store
      (scenarioHeap.assign (AnalyzerObject.construct 0).getAllTransactions 0
        (mkRecord (.num 3) "debit" 5 "2019-03-01"))).getAllTransactions.map
          (fun t => t.transaction_id)) = [.num 3, .num 2] := by
  refine ⟨rfl, ?_, rfl, ?_, rfl, rfl⟩
  · unfold calculateTotalAmount
    rw [foldl_amount]
    simp [AnalyzerObject.store, AnalyzerObject.construct, scenarioHeap, scenarioStore]
    norm_num
  · unfold calculateTotalAmount
    rw [foldl_amount]
    simp [AnalyzerObject.store, AnalyzerObject.construct, AnalyzerObject.getAllTransactions,
      scenarioHeap, scenarioStore, Heap.push, Heap.mutate, mkRecord]
    norm_num

/-- C19 (amended): the value returned by `getAllTransactions()` is the array held
by the store (for an instance built on an array, that very array): a mutation
applied through it (in particular appending, removing or replacing an element)
is applied to the sequence the store holds, which later queries read; a mutation
of any other array leaves the store unchanged. -/
theorem getAllTransactions_aliases_store (self : AnalyzerObject) (H : Heap)
    (f : List Transaction → List Transaction) (t : Transaction) (i : Nat) (r : ArrayRef) :
    (AnalyzerObject.construct r).getAllTransactions = r ∧
    (self.store (H.mutate self.getAllTransactions f)).getAllTransactions =
      f (self.store H).getAllTransactions ∧
    (self.store (H.push self.getAllTransactions t)).getAllTransactions =
      (self.store H).getAllTransactions ++ [t] ∧
    (self.store (H.pop self.getAllTransactions)).getAllTransactions =
      (self.store H).getAllTransactions.dropLast ∧
    (i < (self.store H).getAllTransactions.length →
      (self.store (H.assign self.getAllTransactions i t)).getAllTransactions =
        (self.store H).getAllTransactions.set i t) ∧
    (r ≠ self.getAllTransactions → self.store (H.mutate r f) = self.store H) := by
  refine ⟨rfl, ?_, ?_, ?_, ?_, ?_⟩
  · simp [AnalyzerObject.store, AnalyzerObject.getAllTransactions, getAllTransactions,
      Heap.mutate]
  · simp [AnalyzerObject.store, AnalyzerObject.getAllTransactions, getAllTransactions,
      Heap.push, Heap.mutate]
  · simp [AnalyzerObject.store, AnalyzerObject.getAllTransactions, getAllTransactions,
      Heap.pop, Heap.mutate]
  · intro _
    simp [AnalyzerObject.store, AnalyzerObject.getAllTransactions, getAllTransactions,
      Heap.assign, Heap.mutate]
  · intro hr
    have hr' : ¬ self.transactions = r := fun e => hr e.symm
    simp [AnalyzerObject.store, Heap.mutate, hr']

/-! ## Tie-break of the most active month -/

/-- C20: for every non-empty store whose records all have parseable dates, the
keys of the month counter are month keys visited in ascending numeric order, each
holding the number of records of its month; the reduction keeps the later key
whenever the earlier key's count is not strictly greater; and
`findMostTransactionsMonth` returns the largest month number among the months
that attain the maximum record count. -/
theorem findMostTransactionsMonth_largest_of_most_frequent (self : TransactionAnalyzer)
    (h : Host) (hne : self.transactions ≠ [])
    (hdates : ∀ t ∈ self.transactions, (newDate h t.transaction_date).isSome = true) :
    (objectKeys (countMonths (self.transactions.map (monthNumber h)))).Pairwise indexLt ∧
    (∀ k ∈ objectKeys (countMonths (self.transactions.map (monthNumber h))),
      ∃ m, k = PropertyKey.index m ∧
        countOf (countMonths (self.transactions.map (monthNumber h))) k =
          recordsInMonth self h m) ∧
    (∀ a ∈ objectKeys (countMonths (self.transactions.map (monthNumber h))),
      ∀ b ∈ objectKeys (countMonths (self.transactions.map (monthNumber h))),
        ¬ countOf (countMonths (self.transactions.map (monthNumber h))) a >
            countOf (countMonths (self.transactions.map (monthNumber h))) b →
          pickMonth (countMonths (self.transactions.map (monthNumber h))) a b = b) ∧
    ∃ n, self.findMostTransactionsMonth h = .ok (PropertyKey.index n) ∧
      (∀ m, recordsInMonth self h m ≤ recordsInMonth self h n) ∧
      (∀ m, (∀ m', recordsInMonth self h m' ≤ recordsInMonth self h m) → m ≤ n) := by
  have hval := months_valid self.transactions h hdates
  have hsome : ∀ k ∈ objectKeys (countMonths (self.transactions.map (monthNumber h))),
      ((countMonths (self.transactions.map (monthNumber h))).get k).isSome := by
    intro k hk
    rw [get_isSome_iff, ← mem_objectKeys]
    exact hk
  refine ⟨objectKeys_countMonths_pairwise _ hval, ?_, ?_, ?_⟩
  · intro k hk
    rw [mem_objectKeys, mem_keysOf_countMonths] at hk
    obtain ⟨m, hm, hkey⟩ := List.mem_map.1 hk
    obtain ⟨n, hmn, hlt⟩ := hval m hm
    subst hmn
    have hkn : k = PropertyKey.index n := by
      rw [← hkey]
      simp [toPropertyKey, hlt]
    refine ⟨n, hkn, ?_⟩
    rw [hkn, countOf_countMonths, count_toPropertyKey _ hval, count_monthNumber]
    rfl
  · intro a ha b hb hnot
    rw [pickMonth_eq _ a b (hsome a ha) (hsome b hb), if_neg hnot]
  · obtain ⟨n, hres, _, hmax, htie⟩ := monthReduce_spec self.transactions h hne hdates
    refine ⟨n, by rw [findMostTransactionsMonth_eq, hres], hmax, ?_⟩
    intro m hm
    apply htie m
    exact le_antisymm (hmax m) (hm n)

/-- Witness for C20: the two-record scenario store under the UTC host. -/
theorem findMostTransactionsMonth_largest_of_most_frequent_witness :
    scenarioStore.transactions ≠ [] ∧
    (∀ t ∈ scenarioStore.transactions, (newDate utcHost t.transaction_date).isSome = true) ∧
    ((objectKeys (countMonths (scenarioStore.transactions.map (monthNumber utcHost)))).Pairwise
      indexLt ∧
    (∀ k ∈ objectKeys (countMonths (scenarioStore.transactions.map (monthNumber utcHost))),
      ∃ m, k = PropertyKey.index m ∧
        countOf (countMonths (scenarioStore.transactions.map (monthNumber utcHost))) k =
          recordsInMonth scenarioStore utcHost m) ∧
    (∀ a ∈ objectKeys (countMonths (scenarioStore.transactions.map (monthNumber utcHost))),
      ∀ b ∈ objectKeys (countMonths (scenarioStore.transactions.map (monthNumber utcHost))),
        ¬ countOf (countMonths (scenarioStore.transactions.map (monthNumber utcHost))) a >
            countOf (countMonths (scenarioStore.transactions.map (monthNumber utcHost))) b →
          pickMonth (countMonths (scenarioStore.transactions.map (monthNumber utcHost))) a b
            = b) ∧
    ∃ n, scenarioStore.findMostTransactionsMonth utcHost = .ok (PropertyKey.index n) ∧
      (∀ m, recordsInMonth scenarioStore utcHost m ≤ recordsInMonth scenarioStore utcHost n) ∧
      (∀ m, (∀ m', recordsInMonth scenarioStore utcHost m' ≤
          recordsInMonth scenarioStore utcHost m) → m ≤ n)) :=
  ⟨scenario_ne_nil, scenario_dates,
    findMostTransactionsMonth_largest_of_most_frequent scenarioStore utcHost scenario_ne_nil
      scenario_dates⟩

end TransactionAnalyzer

namespace TransactionAnalyzer

/-! ## The exponent search is exact -/

theorem bitLengthAux_zero (fuel : Nat) : bitLengthAux fuel 0 = 0 := by
  cases fuel <;> simp [bitLengthAux]

theorem bitLengthAux_spec (fuel : Nat) :
    ∀ n, n ≤ fuel → n < 2 ^ bitLengthAux fuel n ∧
      (0 < n → 1 ≤ bitLengthAux fuel n ∧ 2 ^ (bitLengthAux fuel n - 1) ≤ n) := by
  induction fuel with
  | zero =>
    intro n hn
    have : n = 0 := by omega
    subst this
    simp [bitLengthAux]
  | succ fuel ih =>
    intro n hn
    by_cases h0 : n = 0
    · subst h0
      simp [bitLengthAux]
    · have hhalf : n / 2 ≤ fuel := by omega
      obtain ⟨hlt, hge⟩ := ih (n / 2) hhalf
      simp only [bitLengthAux, h0, if_false]
      refine ⟨?_, fun _ => ⟨by omega, ?_⟩⟩
      · rw [pow_succ]
        omega
      · simp only [Nat.add_sub_cancel]
        by_cases hz : n / 2 = 0
        · rw [hz, bitLengthAux_zero]
          simp
          omega
        · obtain ⟨h1, h2⟩ := hge (by omega)
          have hpow : 2 ^ bitLengthAux fuel (n / 2) =
              2 ^ (bitLengthAux fuel (n / 2) - 1) * 2 := by
            rw [← pow_succ]
            congr 1
            omega
          rw [hpow]
          omega

/-- The halving runs to the end: `bitLength n` is the number of binary digits. -/
theorem bitLength_spec (n : Nat) (hn : 0 < n) :
    1 ≤ bitLength n ∧ 2 ^ (bitLength n - 1) ≤ n ∧ n < 2 ^ bitLength n := by
  obtain ⟨h1, h2⟩ := bitLengthAux_spec n n (le_refl n)
  obtain ⟨h3, h4⟩ := h2 hn
  exact ⟨h3, h4, h1⟩

theorem pow2Le_sub (a b p q : Nat) :
    pow2Le ((a : Int) - (b : Int)) p q = decide (2 ^ a * q ≤ p * 2 ^ b) := by
  unfold pow2Le
  by_cases hab : b ≤ a
  · have hk : (0 : Int) ≤ (a : Int) - (b : Int) := by omega
    have ht : ((a : Int) - (b : Int)).toNat = a - b := by omega
    rw [if_pos hk, ht]
    have hpow : 2 ^ a = 2 ^ (a - b) * 2 ^ b := by
      rw [← pow_add]
      congr 1
      omega
    have hpos : 0 < 2 ^ b := pow_pos (by decide) b
    rw [hpow]
    apply decide_eq_decide.2
    constructor
    · intro h
      calc 2 ^ (a - b) * 2 ^ b * q = (2 ^ (a - b) * q) * 2 ^ b := by ring
        _ ≤ p * 2 ^ b := Nat.mul_le_mul_right _ h
    · intro h
      have h' : (2 ^ (a - b) * q) * 2 ^ b ≤ p * 2 ^ b := by
        calc (2 ^ (a - b) * q) * 2 ^ b = 2 ^ (a - b) * 2 ^ b * q := by ring
          _ ≤ p * 2 ^ b := h
      exact Nat.le_of_mul_le_mul_right h' hpos
  · have hk : ¬ (0 : Int) ≤ (a : Int) - (b : Int) := by omega
    have ht : (-((a : Int) - (b : Int))).toNat = b - a := by omega
    rw [if_neg hk, ht]
    have hpow : 2 ^ b = 2 ^ (b - a) * 2 ^ a := by
      rw [← pow_add]
      congr 1
      omega
    have hpos : 0 < 2 ^ a := pow_pos (by decide) a
    rw [hpow]
    apply decide_eq_decide.2
    constructor
    · intro h
      calc 2 ^ a * q = q * 2 ^ a := by ring
        _ ≤ p * 2 ^ (b - a) * 2 ^ a := Nat.mul_le_mul_right _ h
        _ = p * (2 ^ (b - a) * 2 ^ a) := by ring
    · intro h
      have h' : q * 2 ^ a ≤ (p * 2 ^ (b - a)) * 2 ^ a := by
        calc q * 2 ^ a = 2 ^ a * q := by ring
          _ ≤ p * (2 ^ (b - a) * 2 ^ a) := h
          _ = (p * 2 ^ (b - a)) * 2 ^ a := by ring
      exact Nat.le_of_mul_le_mul_right h' hpos

/-- The exponent found is the right one: `2^k ≤ p/q < 2^(k+1)` for
`k = floorLog2 p q`. -/
theorem floorLog2_spec (p q : Nat) (hp : 0 < p) (hq : 0 < q) :
    pow2Le (floorLog2 p q) p q = true ∧ pow2Le (floorLog2 p q + 1) p q = false := by
  obtain ⟨hp1, hp2, hp3⟩ := bitLength_spec p hp
  obtain ⟨hq1, hq2, hq3⟩ := bitLength_spec q hq
  have hpp : 2 ^ bitLength p = 2 ^ (bitLength p - 1) * 2 := by
    rw [← pow_succ]
    congr 1
    omega
  have hqq : 2 ^ bitLength q = 2 ^ (bitLength q - 1) * 2 := by
    rw [← pow_succ]
    congr 1
    omega
  have hlow : pow2Le ((bitLength p : Int) - (bitLength q : Int) - 1) p q = true := by
    have e : (bitLength p : Int) - (bitLength q : Int) - 1 =
        (bitLength p : Int) - ((bitLength q + 1 : Nat) : Int) := by push_cast; ring
    rw [e, pow2Le_sub]
    apply decide_eq_true
    calc 2 ^ bitLength p * q ≤ 2 ^ bitLength p * 2 ^ bitLength q :=
          Nat.mul_le_mul_left _ (le_of_lt hq3)
      _ = (2 ^ (bitLength p - 1)) * (2 ^ (bitLength q + 1)) := by rw [hpp, pow_succ]; ring
      _ ≤ p * 2 ^ (bitLength q + 1) := Nat.mul_le_mul_right _ hp2
  have hhigh : pow2Le ((bitLength p : Int) - (bitLength q : Int) + 1) p q = false := by
    have e : (bitLength p : Int) - (bitLength q : Int) + 1 =
        ((bitLength p + 1 : Nat) : Int) - (bitLength q : Int) := by push_cast; ring
    rw [e, pow2Le_sub]
    apply decide_eq_false
    intro hle
    have h1 : p * 2 ^ bitLength q < 2 ^ bitLength p * 2 ^ bitLength q :=
      Nat.mul_lt_mul_of_pos_right hp3 (pow_pos (by decide) _)
    have h2 : 2 ^ bitLength p * 2 ^ bitLength q = 2 ^ (bitLength p + 1) * 2 ^ (bitLength q - 1) := by
      rw [hqq, pow_succ]; ring
    have h3 : 2 ^ (bitLength p + 1) * 2 ^ (bitLength q - 1) ≤ 2 ^ (bitLength p + 1) * q :=
      Nat.mul_le_mul_left _ hq2
    omega
  unfold floorLog2
  simp only
  by_cases hk : pow2Le ((bitLength p : Int) - (bitLength q : Int)) p q = true
  · rw [if_pos hk]
    exact ⟨hk, hhigh⟩
  · rw [if_neg hk]
    refine ⟨hlow, ?_⟩
    have e : (bitLength p : Int) - (bitLength q : Int) - 1 + 1 =
        (bitLength p : Int) - (bitLength q : Int) := by ring
    rw [e]
    simpa using hk

end TransactionAnalyzer

namespace TransactionAnalyzer

set_option exponentiation.threshold 1100 in
/-- The test on bit lengths is the comparison with `2^1024`. -/
theorem overflows_spec (m k : Nat) (hm : 0 < m) :
    overflows (m, (k : Int)) = decide (2 ^ 1024 ≤ m * 2 ^ k) := by
  obtain ⟨h1, h2, h3⟩ := bitLength_spec m hm
  unfold overflows
  apply decide_eq_decide.2
  simp only
  constructor
  · intro h
    have hle : 1024 ≤ (bitLength m - 1) + k := by omega
    calc 2 ^ 1024 ≤ 2 ^ ((bitLength m - 1) + k) := Nat.pow_le_pow_right (by decide) hle
      _ = 2 ^ (bitLength m - 1) * 2 ^ k := pow_add _ _ _
      _ ≤ m * 2 ^ k := Nat.mul_le_mul_right _ h2
  · intro h
    by_contra hlt
    have hle : bitLength m + k ≤ 1024 := by omega
    have h4 : m * 2 ^ k < 2 ^ bitLength m * 2 ^ k :=
      Nat.mul_lt_mul_of_pos_right h3 (pow_pos (by decide) _)
    have h5 : 2 ^ bitLength m * 2 ^ k = 2 ^ (bitLength m + k) := (pow_add _ _ _).symm
    have h6 : 2 ^ (bitLength m + k) ≤ 2 ^ 1024 := Nat.pow_le_pow_right (by decide) hle
    omega

end TransactionAnalyzer

namespace TransactionAnalyzer

/-! ## Lemmas on double-precision arithmetic -/

theorem roundDouble_ne_nan (x : ℚ) : roundDouble x ≠ JSNumber.nan := by
  unfold roundDouble
  split
  · intro h; cases h
  · split
    · intro h; cases h
    · split <;> intro h <;> cases h

theorem roundDouble_natCast (n : Nat) (hn : 0 < n) :
    roundDouble (n : ℚ) =
      if overflows (roundSignificand n 1) then JSNumber.inf false
      else JSNumber.num (scaled (roundSignificand n 1)) := by
  have hne : (n : ℚ) ≠ 0 := by exact_mod_cast (Nat.pos_iff_ne_zero.1 hn)
  have hnonneg : ¬ (n : ℚ) < 0 := by
    have : (0 : ℚ) ≤ n := by exact_mod_cast Nat.zero_le n
    exact not_lt.2 this
  unfold roundDouble
  simp only [hne, if_false, hnonneg, Rat.num_natCast, Rat.den_natCast, Int.natAbs_ofNat,
    decide_False]

set_option maxRecDepth 20000 in
set_option exponentiation.threshold 1100 in
theorem roundSignificand_values :
    roundSignificand 50 1 = (7036874417766400, -47) ∧
    roundSignificand 80 1 = (5629499534213120, -46) ∧
    roundSignificand 9007199254740992 1 = (4503599627370496, 1) ∧
    roundSignificand 9007199254740993 1 = (4503599627370496, 1) ∧
    roundSignificand (2 ^ 1023) 1 = (4503599627370496, 971) ∧
    roundSignificand (2 ^ 1024) 1 = (4503599627370496, 972) := by
  decide

set_option exponentiation.threshold 1100 in
theorem scaled_values :
    scaled (7036874417766400, -47) = 50 ∧
    scaled (5629499534213120, -46) = 80 ∧
    scaled (4503599627370496, 1) = 9007199254740992 ∧
    scaled (4503599627370496, 971) = 2 ^ 1023 := by
  refine ⟨?_, ?_, ?_, ?_⟩
  · have ht : (47 : Int).toNat = 47 := by decide
    norm_num [scaled, ht]
  · have ht : (46 : Int).toNat = 46 := by decide
    norm_num [scaled, ht]
  · norm_num [scaled]
  · have h : ((4503599627370496 : ℕ) : ℚ) = 2 ^ 52 := by norm_num
    have ht : (971 : Int).toNat = 971 := by decide
    have hs : (0 : Int) ≤ 971 := by decide
    show (if (0 : Int) ≤ 971 then ((4503599627370496 : ℕ) : ℚ) * 2 ^ (971 : Int).toNat
      else ((4503599627370496 : ℕ) : ℚ) / 2 ^ (-(971 : Int)).toNat) = 2 ^ 1023
    rw [if_pos hs, ht, h, ← pow_add]

set_option maxRecDepth 20000 in
theorem overflows_values :
    overflows (7036874417766400, -47) = false ∧
    overflows (5629499534213120, -46) = false ∧
    overflows (4503599627370496, 1) = false ∧
    overflows (4503599627370496, 971) = false ∧
    overflows (4503599627370496, 972) = true := by
  decide

/-- Rounding at the values met in the examples: 50, 80 and `2^53` are doubles,
`2^53 + 1` is halfway between two doubles and goes to the even one, `2^1023` is a
double and `2^1024` is beyond the largest double. -/
theorem roundDouble_values :
    roundDouble 50 = JSNumber.num 50 ∧
    roundDouble 80 = JSNumber.num 80 ∧
    roundDouble 9007199254740992 = JSNumber.num 9007199254740992 ∧
    roundDouble 9007199254740993 = JSNumber.num 9007199254740992 ∧
    roundDouble (2 ^ 1023) = JSNumber.num (2 ^ 1023) ∧
    roundDouble (2 ^ 1024) = JSNumber.inf false := by
  obtain ⟨r1, r2, r3, r4, r5, r6⟩ := roundSignificand_values
  obtain ⟨s1, s2, s3, s5⟩ := scaled_values
  obtain ⟨o1, o2, o3, o5, o6⟩ := overflows_values
  refine ⟨?_, ?_, ?_, ?_, ?_, ?_⟩
  · have h := roundDouble_natCast 50 (by decide)
    rw [r1, o1, s1] at h
    simpa using h
  · have h := roundDouble_natCast 80 (by decide)
    rw [r2, o2, s2] at h
    simpa using h
  · have h := roundDouble_natCast 9007199254740992 (by decide)
    rw [r3, o3, s3] at h
    simpa using h
  · have h := roundDouble_natCast 9007199254740993 (by decide)
    rw [r4, o3, s3] at h
    simpa using h
  · have h := roundDouble_natCast (2 ^ 1023) (pow_pos (by decide) _)
    have hc : ((2 ^ 1023 : ℕ) : ℚ) = 2 ^ 1023 := by rw [Nat.cast_pow, Nat.cast_ofNat]
    rw [r5, o5, s5, hc] at h
    rw [h]
    rfl
  · have h := roundDouble_natCast (2 ^ 1024) (pow_pos (by decide) _)
    have hc : ((2 ^ 1024 : ℕ) : ℚ) = 2 ^ 1024 := by rw [Nat.cast_pow, Nat.cast_ofNat]
    rw [r6, o6, hc] at h
    rw [h]
    rfl

theorem jsAdd_num_num (a b : ℚ) :
    jsAdd (JSNumber.num a) (JSNumber.num b) = roundDouble (a + b) := rfl

theorem jsAdd_num_ne_nan (a : JSNumber) (b : ℚ) (ha : a ≠ JSNumber.nan) :
    jsAdd a (JSNumber.num b) ≠ JSNumber.nan := by
  cases a with
  | num q => exact roundDouble_ne_nan _
  | nan => exact absurd rfl ha
  | inf s => intro h; cases h

theorem foldl_jsAdd_ne_nan (l : List Transaction) (a : JSNumber) (ha : a ≠ JSNumber.nan) :
    l.foldl (fun sum t => jsAdd sum (JSNumber.num t.transaction_amount)) a ≠ JSNumber.nan := by
  induction l generalizing a with
  | nil => exact ha
  | cons t rest ih => exact ih _ (jsAdd_num_ne_nan a _ ha)

theorem calculateTotalAmountF64_ne_nan (self : TransactionAnalyzer) :
    self.calculateTotalAmountF64 ≠ JSNumber.nan :=
  foldl_jsAdd_ne_nan _ _ (by intro h; cases h)

theorem jsDiv_num_ne_nan (a : JSNumber) (b : ℚ) (ha : a ≠ JSNumber.nan) (hb : b ≠ 0) :
    jsDiv a (JSNumber.num b) ≠ JSNumber.nan := by
  cases a with
  | num q =>
    simp only [jsDiv, hb, if_false]
    exact roundDouble_ne_nan _
  | nan => exact absurd rfl ha
  | inf s => intro h; cases h

theorem calculateAverageTransactionAmountF64_ne_nan (self : TransactionAnalyzer)
    (hne : self.transactions ≠ []) :
    self.calculateAverageTransactionAmountF64 ≠ JSNumber.nan := by
  have hlen : (self.transactions.length : ℚ) ≠ 0 := by
    have : self.transactions.length ≠ 0 := fun h0 => hne (List.length_eq_zero.1 h0)
    exact_mod_cast this
  exact jsDiv_num_ne_nan _ _ (calculateTotalAmountF64_ne_nan self) hlen

theorem calculateAverageTransactionAmountF64_nil :
    (TransactionAnalyzer.mk []).calculateAverageTransactionAmountF64 = JSNumber.nan := by
  simp [calculateAverageTransactionAmountF64, calculateTotalAmountF64, jsDiv]

/-- When no addition rounds, the fold of `+` returns the exact sum. -/
theorem foldl_jsAdd_exact (l : List Transaction) :
    ∀ a : ℚ,
      (∀ k, k ≤ l.length →
        roundDouble (a + ((l.take k).map (fun t => t.transaction_amount)).sum) =
          JSNumber.num (a + ((l.take k).map (fun t => t.transaction_amount)).sum)) →
      l.foldl (fun sum t => jsAdd sum (JSNumber.num t.transaction_amount)) (JSNumber.num a) =
        JSNumber.num (a + (l.map (fun t => t.transaction_amount)).sum) := by
  induction l with
  | nil => intro a _; simp
  | cons t rest ih =>
    intro a hexact
    have h1 := hexact 1 (by simp)
    simp only [List.take_succ_cons, List.take_zero, List.map_cons, List.map_nil, List.sum_cons,
      List.sum_nil, add_zero] at h1
    simp only [List.foldl_cons]
    rw [jsAdd_num_num, h1, ih (a + t.transaction_amount)]
    · simp only [List.map_cons, List.sum_cons, add_assoc]
    · intro k hk
      have h := hexact (k + 1) (by simpa using hk)
      simp only [List.take_succ_cons, List.map_cons, List.sum_cons] at h
      rw [add_assoc]
      exact h

theorem calculateTotalAmountF64_scenario :
    scenarioStore.calculateTotalAmountF64 = JSNumber.num 80 := by
  obtain ⟨h50, h80, _⟩ := roundDouble_values
  have e1 : (0 : ℚ) + 50 = 50 := by norm_num
  have e2 : (50 : ℚ) + 30 = 80 := by norm_num
  simp only [calculateTotalAmountF64, scenarioStore, List.foldl_cons, List.foldl_nil,
    jsAdd_num_num, e1, h50, e2, h80]

end TransactionAnalyzer

namespace TransactionAnalyzer

theorem roundDouble_eval (x : ℚ) (p q : Nat) (hx : x ≠ 0) (hp : x.num.natAbs = p)
    (hq : x.den = q) :
    roundDouble x =
      if overflows (roundSignificand p q) then JSNumber.inf (decide (x < 0))
      else if x < 0 then JSNumber.num (-scaled (roundSignificand p q))
      else JSNumber.num (scaled (roundSignificand p q)) := by
  unfold roundDouble
  rw [if_neg hx, hp, hq]

set_option maxRecDepth 20000 in
set_option exponentiation.threshold 1100 in
/-- Rounding at known values: 0.1 goes to the double nearest to it; `2^53 + 3` is
halfway and goes up to the even `2^53 + 4`; `-(2^53 + 1)` goes to `-2^53`; the
largest double `2^1024 - 2^971` is kept, and `2^1024 - 2^970`, halfway to
`2^1024`, is an infinity. -/
theorem roundDouble_known_values :
    roundDouble (1 / 10) = JSNumber.num (3602879701896397 / 36028797018963968) ∧
    roundDouble 9007199254740995 = JSNumber.num 9007199254740996 ∧
    roundDouble (-9007199254740993) = JSNumber.num (-9007199254740992) ∧
    roundDouble ((2 ^ 1024 - 2 ^ 971 : ℕ) : ℚ) = JSNumber.num ((2 ^ 1024 - 2 ^ 971 : ℕ) : ℚ) ∧
    roundDouble ((2 ^ 1024 - 2 ^ 970 : ℕ) : ℚ) = JSNumber.inf false := by
  refine ⟨?_, ?_, ?_, ?_, ?_⟩
  · have hs : roundSignificand 1 10 = (7205759403792794, -56) := by decide
    have ho : overflows (7205759403792794, -56) = false := by decide
    have ht : (56 : Int).toNat = 56 := by decide
    rw [roundDouble_eval (1 / 10) 1 10 (by norm_num) (by norm_num) (by norm_num), hs, ho]
    norm_num [scaled, ht]
  · have hs : roundSignificand 9007199254740995 1 = (4503599627370498, 1) := by decide
    have ho : overflows (4503599627370498, 1) = false := by decide
    have h := roundDouble_natCast 9007199254740995 (by decide)
    rw [hs, ho] at h
    norm_num [scaled] at h
    exact h
  · have hs : roundSignificand 9007199254740993 1 = (4503599627370496, 1) := by decide
    have ho : overflows (4503599627370496, 1) = false := by decide
    rw [roundDouble_eval (-9007199254740993) 9007199254740993 1 (by norm_num) (by norm_num)
      (by norm_num), hs, ho]
    norm_num [scaled]
  · have hs : roundSignificand (2 ^ 1024 - 2 ^ 971) 1 = (9007199254740991, 971) := by decide
    have ho : overflows (9007199254740991, 971) = false := by decide
    have ht : (971 : Int).toNat = 971 := by decide
    have hz : (0 : Int) ≤ 971 := by decide
    have h := roundDouble_natCast (2 ^ 1024 - 2 ^ 971) (by decide)
    rw [hs, ho] at h
    rw [h]
    have hv : scaled (9007199254740991, 971) = ((2 ^ 1024 - 2 ^ 971 : ℕ) : ℚ) := by
      show (if (0 : Int) ≤ 971 then ((9007199254740991 : ℕ) : ℚ) * 2 ^ (971 : Int).toNat
        else ((9007199254740991 : ℕ) : ℚ) / 2 ^ (-(971 : Int)).toNat) = _
      rw [if_pos hz, ht]
      have hn : (2 ^ 1024 - 2 ^ 971 : ℕ) = 9007199254740991 * 2 ^ 971 := by decide
      rw [hn]
      push_cast
      norm_num
    rw [hv]
    rfl
  · have hs : roundSignificand (2 ^ 1024 - 2 ^ 970) 1 = (9007199254740992, 971) := by decide
    have ho : overflows (9007199254740992, 971) = true := by decide
    have h := roundDouble_natCast (2 ^ 1024 - 2 ^ 970) (by decide)
    rw [hs, ho] at h
    rw [h]
    rfl

end TransactionAnalyzer

namespace TransactionAnalyzer

theorem calculateTotalAmountF64_huge :
    hugeStore.calculateTotalAmountF64 = JSNumber.inf false := by
  obtain ⟨_, _, _, _, h1023, h1024⟩ := roundDouble_values
  have e1 : (0 : ℚ) + 2 ^ 1023 = 2 ^ 1023 := zero_add _
  have e2 : (2 : ℚ) ^ 1023 + 2 ^ 1023 = 2 ^ 1024 := by
    rw [← two_mul, ← pow_succ']
  simp only [calculateTotalAmountF64, hugeStore, mkRecord, List.foldl_cons, List.foldl_nil,
    jsAdd_num_num, e1, h1023, e2, h1024]

theorem calculateTotalAmountF64_rounding :
    roundingStore.calculateTotalAmountF64 = JSNumber.num 9007199254740992 := by
  obtain ⟨_, _, h53, h53', _⟩ := roundDouble_values
  have e1 : (0 : ℚ) + 9007199254740992 = 9007199254740992 := zero_add _
  have e2 : (9007199254740992 : ℚ) + 1 = 9007199254740993 := by norm_num
  simp only [calculateTotalAmountF64, roundingStore, mkRecord, List.foldl_cons, List.foldl_nil,
    jsAdd_num_num, e1, h53, e2, h53']

theorem scenario_sums_exact :
    ∀ k ≤ scenarioStore.transactions.length,
      roundDouble (partialSum scenarioStore k) = JSNumber.num (partialSum scenarioStore k) := by
  obtain ⟨h50, h80, _⟩ := roundDouble_values
  intro k hk
  have hlen : scenarioStore.transactions.length = 2 := rfl
  rw [hlen] at hk
  have hcases : k = 0 ∨ k = 1 ∨ k = 2 := by omega
  rcases hcases with h | h | h
  · subst h
    simp [partialSum, roundDouble]
  · subst h
    have e : partialSum scenarioStore 1 = 50 := by simp [partialSum, scenarioStore]
    rw [e, h50]
  · subst h
    have e : partialSum scenarioStore 2 = 80 := by
      simp [partialSum, scenarioStore]
      norm_num
    rw [e, h80]

/-! ## Average and total in double-precision arithmetic -/

/-- C8 (as stated, refuted): on the non-empty store holding two records of amount
`2^1023` the sum overflows, and `calculateAverageTransactionAmount` returns
`Infinity`, which is no finite number. -/
theorem calculateAverageTransactionAmountF64_overflow :
    hugeStore.transactions ≠ [] ∧
    hugeStore.calculateTotalAmountF64 = JSNumber.inf false ∧
    hugeStore.calculateAverageTransactionAmountF64 = JSNumber.inf false ∧
    ¬ ∃ q, hugeStore.calculateAverageTransactionAmountF64 = JSNumber.num q := by
  have havg : hugeStore.calculateAverageTransactionAmountF64 = JSNumber.inf false := by
    unfold calculateAverageTransactionAmountF64
    rw [calculateTotalAmountF64_huge]
    simp [jsDiv, hugeStore]
  refine ⟨by simp [hugeStore], calculateTotalAmountF64_huge, havg, ?_⟩
  rintro ⟨q, hq⟩
  rw [havg] at hq
  cases hq

/-- C8 (amended): on the empty store `calculateAverageTransactionAmount` is `NaN`
(the total 0 divided by the count 0), which is not the number 0; it is `NaN` only
on the empty store: on every non-empty store it is a finite number or an
infinity. -/
theorem calculateAverageTransactionAmountF64_nan_iff_empty (self : TransactionAnalyzer) :
    (TransactionAnalyzer.mk []).calculateTotalAmountF64 = JSNumber.num 0 ∧
    (TransactionAnalyzer.mk []).calculateAverageTransactionAmountF64 = JSNumber.nan ∧
    (TransactionAnalyzer.mk []).calculateAverageTransactionAmountF64 ≠ JSNumber.num 0 ∧
    (self.calculateAverageTransactionAmountF64 = JSNumber.nan ↔ self.transactions = []) ∧
    (self.transactions ≠ [] →
      (∃ q, self.calculateAverageTransactionAmountF64 = JSNumber.num q) ∨
      (∃ s, self.calculateAverageTransactionAmountF64 = JSNumber.inf s)) := by
  have hnil := calculateAverageTransactionAmountF64_nil
  have hne0 : (TransactionAnalyzer.mk []).calculateAverageTransactionAmountF64 ≠
      JSNumber.num 0 := by
    rw [hnil]
    intro h
    cases h
  refine ⟨rfl, hnil, hne0, ?_, ?_⟩
  · constructor
    · intro hnan
      by_contra hne
      exact calculateAverageTransactionAmountF64_ne_nan self hne hnan
    · intro hempty
      obtain ⟨l⟩ := self
      simp only at hempty
      subst hempty
      exact hnil
  · intro hne
    have hnn := calculateAverageTransactionAmountF64_ne_nan self hne
    cases havg : self.calculateAverageTransactionAmountF64 with
    | num q => exact Or.inl ⟨q, rfl⟩
    | nan => exact absurd havg hnn
    | inf s => exact Or.inr ⟨s, rfl⟩

/-- C18 (as stated, refuted): on the store with amounts `2^53` and 1 the exact sum
is `2^53 + 1`, while `calculateTotalAmount()` returns `2^53`: the second addition
is rounded. -/
theorem calculateTotalAmountF64_not_exact_sum :
    (roundingStore.getAllTransactions.map (fun t => t.transaction_amount)).sum =
      9007199254740993 ∧
    roundingStore.calculateTotalAmountF64 = JSNumber.num 9007199254740992 ∧
    roundingStore.calculateTotalAmountF64 ≠
      JSNumber.num
        (roundingStore.getAllTransactions.map (fun t => t.transaction_amount)).sum := by
  have hsum : (roundingStore.getAllTransactions.map (fun t => t.transaction_amount)).sum =
      9007199254740993 := by
    simp [roundingStore, getAllTransactions, mkRecord]
    norm_num
  refine ⟨hsum, calculateTotalAmountF64_rounding, ?_⟩
  rw [hsum, calculateTotalAmountF64_rounding]
  intro h
  injection h with h
  norm_num at h

/-- C18 (amended): when every partial sum of the amounts, taken in insertion
order, is a double (so that no addition is rounded), `calculateTotalAmount()` is
the sum of `transaction_amount` over all stored records; it is 0 on the empty
store and 80 on the two-record scenario store with amounts 50 and 30. -/
theorem calculateTotalAmountF64_eq_sum_of_exact (self : TransactionAnalyzer)
    (hexact : ∀ k ≤ self.transactions.length,
      roundDouble (partialSum self k) = JSNumber.num (partialSum self k)) :
    self.calculateTotalAmountF64 =
      JSNumber.num (self.getAllTransactions.map (fun t => t.transaction_amount)).sum ∧
    (TransactionAnalyzer.mk []).calculateTotalAmountF64 = JSNumber.num 0 ∧
    scenarioStore.calculateTotalAmountF64 = JSNumber.num 80 := by
  refine ⟨?_, rfl, calculateTotalAmountF64_scenario⟩
  have h := foldl_jsAdd_exact self.transactions 0 (by
    intro k hk
    have := hexact k hk
    unfold partialSum at this
    rw [zero_add]
    exact this)
  rw [zero_add] at h
  exact h

/-- Witness for C18 (amended): the scenario store, whose partial sums 0, 50 and 80
are doubles. -/
theorem calculateTotalAmountF64_eq_sum_of_exact_witness :
    (∀ k ≤ scenarioStore.transactions.length,
      roundDouble (partialSum scenarioStore k) = JSNumber.num (partialSum scenarioStore k)) ∧
    (scenarioStore.calculateTotalAmountF64 =
      JSNumber.num (scenarioStore.getAllTransactions.map (fun t => t.transaction_amount)).sum ∧
    (TransactionAnalyzer.mk []).calculateTotalAmountF64 = JSNumber.num 0 ∧
    scenarioStore.calculateTotalAmountF64 = JSNumber.num 80) :=
  ⟨scenario_sums_exact, calculateTotalAmountF64_eq_sum_of_exact scenarioStore scenario_sums_exact⟩

end TransactionAnalyzer
